import Mathlib

/-!
Verification of the NFSv3 client target layer (`nfs/target.go`) of
`go-nfs/nfsv3`.

The repository's `Target` translates path-oriented filesystem operations
into sequences of NFSv3 RPCs.  We shallowly embed that layer: the remote
server is a record of pure response functions (one per NFSv3 procedure the
code issues), every Go function that performs RPCs becomes a Lean function
returning its result together with the ordered list of requests it sent,
and the (potentially unbounded) recursion of the path resolver, directory
pager and recursive remover is indexed by fuel.  Fuel exhaustion is
represented by `none` in the result, distinct from every error the Go code
can produce.
-/

namespace NfsTarget

/-- A file handle's byte content.  NFSv3 handles are opaque byte strings;
we model bytes as naturals (values below 256 in real handles, but nothing
in the target layer depends on that bound). -/
abbrev Handle := List Nat

/-- A Go `[]byte` file-handle variable, which may be `nil`.  `none` is Go's
`nil` slice; `some h` a non-nil slice with content `h`. -/
abbrev FH := Option Handle

/-- The byte content a Go `[]byte` presents when indexed/measured:
a `nil` slice behaves as the empty byte string. -/
def fhBytes (a : FH) : Handle := a.getD []

/-- Go `sameHandle` from `nfs/target.go`: false when lengths differ, else a
pointwise comparison of the bytes (the Go loop `for i, av := range a`,
rendered as a zip once the lengths are known equal). -/
def sameHandle (a b : Handle) : Bool :=
  if a.length = b.length then
    (List.zip a b).all (fun p => p.1 = p.2)
  else false

/-- The Go call site `sameHandle(fh, lookupOrigin)` passes `[]byte` values
that may be `nil`; `nil` compares as the empty string. -/
def sameHandleFH (a b : FH) : Bool := sameHandle (fhBytes a) (fhBytes b)

/-- Go `strings.Split(p, "/")` on the character list: greedy split on `'/'`,
empty input yields `[[]]`, adjacent separators yield empty segments. -/
def splitChars : List Char → List (List Char)
  | [] => [[]]
  | c :: rest =>
    match splitChars rest with
    | [] => [[c]]
    | seg :: segs =>
      if c = '/' then [] :: seg :: segs else (c :: seg) :: segs

/-- Go `strings.Split(p, "/")` as used by `lookupInner`. -/
def splitOnSlash (p : String) : List String :=
  (splitChars p.data).map (fun l => String.mk l)

/-- Errors the embedded code distinguishes.
`nfs s` is `NFS3Error(s)` for a nonzero reply status; `msg s` is a
`fmt.Errorf` the target layer itself builds; `transport` stands for an
error surfaced verbatim from the RPC channel or the XDR decoder. -/
inductive Err where
  | nfs (status : Nat)
  | msg (s : String)
  | transport (s : String)
deriving DecidableEq, Repr

/-- Modelled from the spec: the NFS3 status numbers (§7 names them; the
defining constants live in the repository outside `src/`).  Values are the
RFC 1813 ones. -/
def nfs3ErrNoEnt : Nat := 2

/-- Modelled from the spec: `NFS3ERR_NOTDIR` (RFC 1813). -/
def nfs3ErrNotDir : Nat := 20

/-- Modelled from the spec: `NFS3ERR_NOTEMPTY` (RFC 1813). -/
def nfs3ErrNotEmpty : Nat := 66

/-- Modelled from the spec: `NFS3ERR_STALE` (RFC 1813). -/
def nfs3ErrStale : Nat := 70

/-- Modelled from the spec: the `os.IsNotExist` test applied to the
repository's NFS error values (`RemoveAll`, line 708).  The predicate's
behaviour on those values is fixed outside `src/`; spec §7: the
is-not-exist "predicate maps `NOENT` and `STALE` to absent". -/
def isNotExistErr (e : Err) : Bool :=
  e = .nfs nfs3ErrNoEnt || e = .nfs nfs3ErrStale

/-- Modelled from the spec: `IsNotDirError` (`RemoveAll`, line 713), the
predicate for `NFS3ERR_NOTDIR`; its definition lives outside `src/`
(spec §7 exposes an is-not-dir predicate "for the recursive remover's
branch decision"). -/
def isNotDirErr (e : Err) : Bool := e = .nfs nfs3ErrNotDir

/-- Modelled from the spec: `NF3DIR`, the directory file type (RFC 1813
value 2); the constant is defined outside `src/`. -/
def nf3Dir : Nat := 2

/-- The fields of the decoded `fattr3` the target layer reads or that the
claims name (`Type`, `FileMode`, `Nlink`, `UID`, `GID`, `Filesize`,
`Fileid`).  The remaining wire fields (used bytes, rdev, fsid, the three
timestamps) are decoded and never read by this layer, so they are omitted
from the model. -/
structure Fattr where
  ftype    : Nat
  fileMode : Nat
  nlink    : Nat
  uid      : Nat
  gid      : Nat
  size     : Nat
  fileid   : Nat
deriving DecidableEq, Repr

/-- The zero `Fattr`, what the Go decoder leaves in place when an optional
attribute is absent. -/
def fattrZero : Fattr := ⟨0, 0, 0, 0, 0, 0, 0⟩

/-- XDR `post_op_attr`: `none` when the server omitted the attributes. -/
abbrev PostOpAttr := Option Fattr

/-- Reading the `.Attr` field of a decoded `PostOpAttr` in Go: when the
optional value was absent the struct field holds the zero value. -/
def paAttr (a : PostOpAttr) : Fattr := a.getD fattrZero

/-- The symlink test `fattr.FileMode&0o170000 == 0o120000`
(`lookupInner`, line 158). -/
def isSymlinkMode (mode : Nat) : Bool := mode &&& 0o170000 = 0o120000

/-- An RPC credential.  `rpc.Auth` is opaque to the target layer; we model
it as an abstract token. -/
abbrev Auth := Nat

/-- The `rpc.AuthNull` value, the verifier every call site sends. -/
def authNull : Auth := 0

/-- Modelled from the spec: program/version/procedure numbers
(`Nfs3Prog`, `Nfs3Vers`, `NFSProc3*` are defined outside `src/`;
spec §6 fixes `prog=100003, vers=3`, procedures per RFC 1813 §3). -/
def nfs3Prog : Nat := 100003

/-- Modelled from the spec: NFS version 3. -/
def nfs3Vers : Nat := 3

/-- Modelled from the spec: `NFSProc3GetAttr` (RFC 1813). -/
def procGetAttr : Nat := 1

/-- Modelled from the spec: `NFSProc3SetAttr`. -/
def procSetAttr : Nat := 2

/-- Modelled from the spec: `NFSProc3Lookup`. -/
def procLookup : Nat := 3

/-- Modelled from the spec: `NFSProc3Access`. -/
def procAccess : Nat := 4

/-- Modelled from the spec: `NFSProc3Readlink`. -/
def procReadlink : Nat := 5

/-- Modelled from the spec: `NFSProc3Create`. -/
def procCreate : Nat := 8

/-- Modelled from the spec: `NFSProc3Mkdir`. -/
def procMkdir : Nat := 9

/-- Modelled from the spec: `NFSProc3Remove`. -/
def procRemove : Nat := 12

/-- Modelled from the spec: `NFSProc3RmDir`. -/
def procRmDir : Nat := 13

/-- Modelled from the spec: `NFSProc3Rename`. -/
def procRename : Nat := 14

/-- Modelled from the spec: `NFSProc3ReadDirPlus`. -/
def procReadDirPlus : Nat := 17

/-- Modelled from the spec: `NFSProc3FSInfo`. -/
def procFSInfo : Nat := 19

/-- The `rpc.Header` every call site constructs. -/
structure Header where
  rpcvers : Nat
  prog    : Nat
  vers    : Nat
  proc    : Nat
  cred    : Auth
  verf    : Auth
deriving DecidableEq, Repr

/-- The `sattr3` record as the target layer populates it: the core only ever sets
mode and (for `CreateTruncate`) size; every other field is sent as
"don't set". -/
structure Sattr3 where
  mode : Option Nat
  size : Option Nat
deriving DecidableEq, Repr

/-- The argument body of each RPC request the target layer emits, one
constructor per procedure it uses. -/
inductive RpcBody where
  | fsinfo (root : FH)
  | lookup (dir : FH) (name : String)
  | access (fh : FH) (mask : Nat)
  | getattr (fh : FH)
  | setattr (fh : FH) (attr : Sattr3)
  | create (dir : FH) (name : String) (how : Nat) (attr : Sattr3)
  | mkdir (dir : FH) (name : String) (attr : Sattr3)
  | remove (dir : FH) (name : String)
  | rmdir (dir : FH) (name : String)
  | rename (fromDir : FH) (fromName : String) (toDir : FH) (toName : String)
  | readlink (fh : FH)
  | readdirplus (fh : FH) (cookie : Nat) (cookieVerf : Nat)
      (dircount : Nat) (maxcount : Nat)
deriving DecidableEq, Repr

/-- One emitted RPC request: the header the call site built plus the
procedure arguments. -/
structure RpcReq where
  header : Header
  body   : RpcBody
deriving DecidableEq, Repr

/-- The procedure number an `RpcBody` belongs to. -/
def procOfBody : RpcBody → Nat
  | .fsinfo _ => procFSInfo
  | .lookup _ _ => procLookup
  | .access _ _ => procAccess
  | .getattr _ => procGetAttr
  | .setattr _ _ => procSetAttr
  | .create _ _ _ _ => procCreate
  | .mkdir _ _ _ => procMkdir
  | .remove _ _ => procRemove
  | .rmdir _ _ => procRmDir
  | .rename _ _ _ _ => procRename
  | .readlink _ => procReadlink
  | .readdirplus _ _ _ _ _ => procReadDirPlus

/-- The decoded body of a successful `LOOKUP` reply. -/
structure LookupOk where
  fh      : FH
  attr    : PostOpAttr
  dirAttr : PostOpAttr
deriving DecidableEq, Repr

/-- The decoded body of a successful `READLINK` reply. -/
structure ReadlinkOk where
  attr   : PostOpAttr
  target : String
deriving DecidableEq, Repr

/-- One `READDIRPLUS` reply page: preamble cookie-verifier, the decoded
entry list, and the trailing `eof` boolean.  (The preamble's directory
attributes are decoded and dropped by the Go code.) -/
structure EntryPlus where
  fileId   : Nat
  fileName : String
  cookie   : Nat
  attr     : PostOpAttr
  handle   : Option Handle
deriving DecidableEq, Repr

/-- A decoded `READDIRPLUS` reply page. -/
structure DirPage where
  cookieVerf : Nat
  entries    : List EntryPlus
  eof        : Bool
deriving DecidableEq, Repr

/-- The decoded body of a successful `MKDIR` reply (`MkdirOk`): the
optional post-op handle and attributes; the wcc data is drained unread. -/
structure MkdirOk where
  fh   : FH
  attr : PostOpAttr
deriving DecidableEq, Repr

/-- The decoded body of a successful `CREATE` reply (`Create3Res`). -/
structure CreateOk where
  fh   : FH
  attr : PostOpAttr
deriving DecidableEq, Repr

/-- The decoded `FSINFO` reply.  The target layer stores it and the claims
never read a field, so it stays abstract. -/
structure FSInfo where
  blob : Nat
deriving DecidableEq, Repr

/-- A pure model of the remote server: one response function per NFSv3
procedure the target layer issues.  Each function already accounts for the
status word and body decode performed by `Target.call` plus the per-call
`xdr.Read`: a `.error` is either a nonzero NFS status, a transport error,
or a decode failure. -/
structure Server where
  lookupFn   : FH → String → Except Err LookupOk
  readlinkFn : FH → Except Err ReadlinkOk
  getattrFn  : FH → Except Err Fattr
  accessFn   : FH → Nat → Except Err (PostOpAttr × Nat)
  readdirFn  : FH → Nat → Nat → Nat → Nat → Except Err DirPage
  mkdirFn    : FH → String → Sattr3 → Except Err MkdirOk
  createFn   : FH → String → Nat → Sattr3 → Except Err CreateOk
  removeFn   : FH → String → Except Err Unit
  rmdirFn    : FH → String → Except Err Unit
  renameFn   : FH → String → FH → String → Except Err Unit
  setattrFn  : FH → Sattr3 → Except Err Unit
  fsinfoFn   : FH → Except Err FSInfo

/-- The result of running an embedded operation: `none` when the supplied
fuel ran out (the Go code would still be recursing), otherwise the Go
return value or error, paired with the ordered list of RPC requests the
operation sent (requests are recorded even when the reply is an error). -/
abbrev Tr (α : Type) := Option (Except Err α) × List RpcReq

namespace Tr

/-- Lift a value into `Tr`: no RPCs issued. -/
def pure (a : α) : Tr α := (some (.ok a), [])

/-- An error return with no further RPCs. -/
def fail (e : Err) : Tr α := (some (.error e), [])

/-- Sequencing: run `x`; on success feed the value to `f`, concatenating
request traces.  Errors and fuel exhaustion keep the trace issued so far. -/
def bind (x : Tr α) (f : α → Tr β) : Tr β :=
  match x with
  | (none, t) => (none, t)
  | (some (.error e), t) => (some (.error e), t)
  | (some (.ok a), t) =>
    match f a with
    | (r, t2) => (r, t ++ t2)

instance : Monad Tr where
  pure := Tr.pure
  bind := Tr.bind

/-- Issue one RPC: record the request and adopt the server's reply. -/
def call (req : RpcReq) (resp : Except Err α) : Tr α := (some resp, [req])

end Tr

end NfsTarget

namespace NfsTarget

/-- The result 4-tuple of `lookupInner`:
`(fattr, fh, dirent, prevFh)` — terminal attributes (a nil-able pointer),
terminal handle, last path component visited, and the handle current
before that component. -/
abbrev LookupRes := Option Fattr × FH × String × FH

/-- Go `Target.FSInfo` (target.go:81): one FSINFO call on the root handle. -/
def fsInfoGo (srv : Server) (auth : Auth) (root : FH) : Tr FSInfo :=
  Tr.call ⟨⟨2, nfs3Prog, nfs3Vers, procFSInfo, auth, authNull⟩, .fsinfo root⟩
    (srv.fsinfoFn root)

/-- Go `Target.lookup` (target.go:176): one LOOKUP, returning the entry's
attributes, its handle and the directory's attributes. -/
def lookupRpcGo (srv : Server) (auth : Auth) (fh : FH) (name : String) :
    Tr (Fattr × FH × Fattr) :=
  Tr.call ⟨⟨2, nfs3Prog, nfs3Vers, procLookup, auth, authNull⟩, .lookup fh name⟩
    ((srv.lookupFn fh name).map (fun r => (paAttr r.attr, r.fh, paAttr r.dirAttr)))

/-- Go `Target.readlinkFh` (target.go:934): one READLINK. -/
def readlinkFhGo (srv : Server) (auth : Auth) (fh : FH) : Tr (Fattr × String) :=
  Tr.call ⟨⟨2, nfs3Prog, nfs3Vers, procReadlink, auth, authNull⟩, .readlink fh⟩
    ((srv.readlinkFn fh).map (fun r => (paAttr r.attr, r.target)))

/-- Go `Target.GetAttrFh` (target.go:523; `GetAttrByFh`, line 777, is the
same envelope): one GETATTR. -/
def getAttrFhGo (srv : Server) (auth : Auth) (fh : FH) : Tr Fattr :=
  Tr.call ⟨⟨2, nfs3Prog, nfs3Vers, procGetAttr, auth, authNull⟩, .getattr fh⟩
    (srv.getattrFn fh)

/-- Go `Target.access` (target.go:233): one ACCESS. -/
def accessRpcGo (srv : Server) (auth : Auth) (fh : FH) (mask : Nat) :
    Tr (Fattr × Nat) :=
  Tr.call ⟨⟨2, nfs3Prog, nfs3Vers, procAccess, auth, authNull⟩, .access fh mask⟩
    ((srv.accessFn fh mask).map (fun r => (paAttr r.1, r.2)))

/-- Go `Target.SetAttrByFh` (target.go:819): one SETATTR with guard off. -/
def setAttrByFhGo (srv : Server) (auth : Auth) (fh : FH) (fattr : Sattr3) :
    Tr Unit :=
  Tr.call ⟨⟨2, nfs3Prog, nfs3Vers, procSetAttr, auth, authNull⟩, .setattr fh fattr⟩
    (srv.setattrFn fh fattr)

/-- Go `Target.MkdirByParentFh` (target.go:382): one MKDIR sending only the
permission bits (`perm.Perm()` keeps the low 9 bits); returns the reply's
post-op handle field as decoded (`nil` when the server omitted it). -/
def mkdirByParentFhGo (srv : Server) (auth : Auth) (fh : FH) (name : String)
    (perm : Nat) : Tr FH :=
  Tr.call ⟨⟨2, nfs3Prog, nfs3Vers, procMkdir, auth, authNull⟩,
      .mkdir fh name ⟨some (perm &&& 0o777), none⟩⟩
    ((srv.mkdirFn fh name ⟨some (perm &&& 0o777), none⟩).map (fun r => r.fh))

/-- Go `Target.CreateByFh` (target.go:560): one CREATE, mode UNCHECKED
(the Go `How.Mode` is left at its zero value), setting only permissions. -/
def createByFhGo (srv : Server) (auth : Auth) (fh : FH) (name : String)
    (perm : Nat) : Tr FH :=
  Tr.call ⟨⟨2, nfs3Prog, nfs3Vers, procCreate, auth, authNull⟩,
      .create fh name 0 ⟨some (perm &&& 0o777), none⟩⟩
    ((srv.createFn fh name 0 ⟨some (perm &&& 0o777), none⟩).map (fun r => r.fh))

/-- Go `Target.remove` (target.go:628): one REMOVE. -/
def removeRpcGo (srv : Server) (auth : Auth) (fh : FH) (name : String) :
    Tr Unit :=
  Tr.call ⟨⟨2, nfs3Prog, nfs3Vers, procRemove, auth, authNull⟩, .remove fh name⟩
    (srv.removeFn fh name)

/-- Go `Target.rmDir` (target.go:669): one RMDIR. -/
def rmDirRpcGo (srv : Server) (auth : Auth) (fh : FH) (name : String) :
    Tr Unit :=
  Tr.call ⟨⟨2, nfs3Prog, nfs3Vers, procRmDir, auth, authNull⟩, .rmdir fh name⟩
    (srv.rmdirFn fh name)

/-- Go `Target.RenameByFh` (target.go:878): one RENAME. -/
def renameByFhGo (srv : Server) (auth : Auth) (fromFh : FH) (fromName : String)
    (toFh : FH) (toName : String) : Tr Unit :=
  Tr.call ⟨⟨2, nfs3Prog, nfs3Vers, procRename, auth, authNull⟩,
      .rename fromFh fromName toFh toName⟩
    (srv.renameFn fromFh fromName toFh toName)

/-- The reparse multi-assignment at target.go:168 followed by the rest of
the loop: `_, fh, _, _, err = v.lookupInner(v.fh, target, true, fh)` takes
only the returned handle, leaves `err` unchecked, and falls through to the
loop continuation.  A reparse error therefore sets the handle to nil and
is dropped; the reparse's RPCs stay in the trace; fuel exhaustion inside
the reparse propagates. -/
def reparseSwallow (rp : Tr LookupRes) (cont : FH → Tr LookupRes) :
    Tr LookupRes :=
  match rp with
  | (none, t2) => (none, t2)
  | (some (.error _), t2) => ((cont none).1, t2 ++ (cont none).2)
  | (some (.ok res), t2) => ((cont res.2.1).1, t2 ++ (cont res.2.1).2)

/-- Go `Target.lookupInner`'s loop (target.go:130-173), recursing over the
remaining path components with the mutable loop state `(fattr, fh)`
passed explicitly.  `root` is the Target's mount root `v.fh` (symlink
reparses restart from it); `origin` is the `lookupOrigin` argument.  Fuel
decreases on every recursive call; `(none, trace)` means the fuel ran out
where the Go code would still be running. -/
def lookupListGo (srv : Server) (auth : Auth) (root : FH) :
    Nat → Bool → FH → Option Fattr → FH → List String → Tr LookupRes
  | 0, _, _, _, _, _ => (none, [])
  | _ + 1, _, _, fattr, fh, [] =>
    -- unreachable from `lookupInner`: `strings.Split` never returns an
    -- empty list; mirrors Go's zero-initialised `dirent`/`prevFh`.
    Tr.pure (fattr, fh, "", none)
  | fuel + 1, lookupLast, origin, fattr, fh, dirent :: rest =>
    let prevFh := fh
    let isLast := rest.isEmpty
    let cont : Option Fattr → FH → Tr LookupRes := fun fattr' fh' =>
      if isLast then Tr.pure (fattr', fh', dirent, prevFh)
      else lookupListGo srv auth root fuel lookupLast origin fattr' fh' rest
    if isLast && !lookupLast then
      -- `i == len(dirents) && !lookupLast`: clear fattr/fh and break
      Tr.pure (none, none, dirent, prevFh)
    else if dirent = "." || dirent = "" then
      cont fattr fh
    else
      Tr.bind
        (Tr.call ⟨⟨2, nfs3Prog, nfs3Vers, procLookup, auth, authNull⟩,
            .lookup prevFh dirent⟩ (srv.lookupFn prevFh dirent))
        (fun lr =>
          let fattrN := paAttr lr.attr
          let fhN := lr.fh
          if isSymlinkMode fattrN.fileMode then
            if origin.isSome && sameHandleFH fhN origin then
              Tr.fail (.msg "recursed symlink")
            else
              Tr.bind
                (Tr.call ⟨⟨2, nfs3Prog, nfs3Vers, procReadlink, auth, authNull⟩,
                    .readlink fhN⟩ (srv.readlinkFn fhN))
                (fun rl =>
                  -- reparse from the mount root
                  reparseSwallow
                    (lookupListGo srv auth root fuel true fhN none root
                      (splitOnSlash rl.target))
                    (fun fh2 => cont (some fattrN) fh2))
          else
            cont (some fattrN) fhN)

/-- Go `Target.lookupInner` (target.go:130). -/
def lookupInnerGo (srv : Server) (auth : Auth) (root : FH) (fuel : Nat)
    (fh : FH) (p : String) (lookupLast : Bool) (origin : FH) : Tr LookupRes :=
  lookupListGo srv auth root fuel lookupLast origin none fh (splitOnSlash p)

/-- Go `Target.Lookup` (target.go:125): resolve from the mount root,
following a final symlink, and return (attributes, handle). -/
def LookupGo (srv : Server) (auth : Auth) (root : FH) (fuel : Nat)
    (p : String) : Tr (Option Fattr × FH) :=
  Tr.bind (lookupInnerGo srv auth root fuel root p true none)
    (fun r => Tr.pure (r.1, r.2.1))

/-- Go `Target.GetAttr` (target.go:511): `Lookup`, then GETATTR on the
resulting handle; returns (attributes, handle). -/
def GetAttrGo (srv : Server) (auth : Auth) (root : FH) (fuel : Nat)
    (p : String) : Tr (Fattr × FH) :=
  Tr.bind (LookupGo srv auth root fuel p) (fun r =>
    Tr.bind (getAttrFhGo srv auth r.2) (fun fattr => Tr.pure (fattr, r.2)))

/-- Go `Target.Access` (target.go:220): `Lookup`, then ACCESS. -/
def AccessGo (srv : Server) (auth : Auth) (root : FH) (fuel : Nat)
    (p : String) (mode : Nat) : Tr Nat :=
  Tr.bind (LookupGo srv auth root fuel p) (fun r =>
    Tr.bind (accessRpcGo srv auth r.2 mode) (fun a => Tr.pure a.2))

/-- Go `Target.Readlink` (target.go:924): `Lookup`, then READLINK. -/
def ReadlinkGo (srv : Server) (auth : Auth) (root : FH) (fuel : Nat)
    (p : String) : Tr String :=
  Tr.bind (LookupGo srv auth root fuel p) (fun r =>
    Tr.bind (readlinkFhGo srv auth r.2) (fun rl => Tr.pure rl.2))

/-- Go `Target.Rename` (target.go:860): resolve the source with
`lookupLast = true` and the destination with `lookupLast = false`; a nil
parent handle on either side yields the root-rename error; otherwise one
RENAME on the two (parent-handle, name) pairs. -/
def RenameGo (srv : Server) (auth : Auth) (root : FH) (fuel : Nat)
    (fromPath : String) (toPath : String) : Tr Unit :=
  Tr.bind (lookupInnerGo srv auth root fuel root fromPath true none)
    (fun fr =>
      if fr.2.2.2.isNone then
        Tr.fail (.msg "fromName cannot be a root directory")
      else
        Tr.bind (lookupInnerGo srv auth root fuel root toPath false none)
          (fun to' =>
            if to'.2.2.2.isNone then
              Tr.fail (.msg "toName cannot be a root directory")
            else
              renameByFhGo srv auth fr.2.2.2 fr.2.2.1 to'.2.2.2 to'.2.2.1))

/-- The cookie after decoding one page: the Go loop assigns
`cookie = item.Entry.Cookie` per entry, so an empty page leaves the
previous cookie in place. -/
def lastCookie (entries : List EntryPlus) (cookie : Nat) : Nat :=
  entries.foldl (fun _ e => e.cookie) cookie

/-- Go `Target.ReadDirPlusByFh`'s pagination loop (target.go:309-366):
request a page with the current cookie/verifier and the fixed
`dircount=512, maxcount=4096`; append its entries; stop at `eof`,
otherwise continue with the last entry's cookie and the page's preamble
verifier. -/
def readDirPlusLoopGo (srv : Server) (auth : Auth) (fh : FH) :
    Nat → Nat → Nat → List EntryPlus → Tr (List EntryPlus)
  | 0, _, _, _ => (none, [])
  | fuel + 1, cookie, cookieVerf, acc =>
    Tr.bind
      (Tr.call ⟨⟨2, nfs3Prog, nfs3Vers, procReadDirPlus, auth, authNull⟩,
          .readdirplus fh cookie cookieVerf 512 4096⟩
        (srv.readdirFn fh cookie cookieVerf 512 4096))
      (fun page =>
        let cookie' := lastCookie page.entries cookie
        let acc' := acc ++ page.entries
        if page.eof then Tr.pure acc'
        else readDirPlusLoopGo srv auth fh fuel cookie' page.cookieVerf acc')

/-- Go `Target.ReadDirPlusByFh` (target.go:284): start at cookie 0,
verifier 0, with an empty entry list. -/
def readDirPlusByFhGo (srv : Server) (auth : Auth) (fuel : Nat) (fh : FH) :
    Tr (List EntryPlus) :=
  readDirPlusLoopGo srv auth fh fuel 0 0 []

/-- Sequence a `Tr Unit` action over a list, stopping at the first error
(the Go `for` loops that `return err` on a failing iteration). -/
def trSeq (f : α → Tr Unit) : List α → Tr Unit
  | [] => Tr.pure ()
  | x :: rest => Tr.bind (f x) (fun _ => trSeq f rest)

/-- Go `Target.removeAll` (target.go:735), the recursive helper: list the
directory, then for each entry other than `.` and `..`: a directory-typed
entry is recursed into when its handle is present and then RMDIRed
(RMDIRed directly when the handle is absent); any other entry is
REMOVEd.  Fuel bounds the recursion depth. -/
def removeAllRecGo (srv : Server) (auth : Auth) :
    Nat → FH → Tr Unit
  | 0, _ => (none, [])
  | fuel + 1, dirFh =>
    Tr.bind (readDirPlusByFhGo srv auth (fuel + 1) dirFh)
      (fun entries =>
        trSeq
          (fun e =>
            if e.fileName = "." || e.fileName = ".." then Tr.pure ()
            else if (paAttr e.attr).ftype = nf3Dir then
              if e.handle.isSome then
                Tr.bind (removeAllRecGo srv auth fuel e.handle)
                  (fun _ => rmDirRpcGo srv auth dirFh e.fileName)
              else rmDirRpcGo srv auth dirFh e.fileName
            else removeRpcGo srv auth dirFh e.fileName)
          entries)

/-- Go `Target.RemoveAll` (target.go:699): resolve to `(parent, name)`;
attempt RMDIR; success or an is-not-exist error is success; a not-a-dir
error is surfaced; otherwise resolve the directory's own handle, clear it
recursively, and RMDIR it again. -/
def RemoveAllGo (srv : Server) (auth : Auth) (root : FH) (fuel : Nat)
    (p : String) : Tr Unit :=
  Tr.bind (lookupInnerGo srv auth root fuel root p false none)
    (fun r =>
      let deleteDir := r.2.2.1
      let parentDirfh := r.2.2.2
      match rmDirRpcGo srv auth parentDirfh deleteDir with
      | (none, t1) => (none, t1)
      | (some (.ok _), t1) => (some (.ok ()), t1)
      | (some (.error e), t1) =>
        if isNotExistErr e then (some (.ok ()), t1)
        else if isNotDirErr e then (some (.error e), t1)
        else
          match
            Tr.bind (lookupInnerGo srv auth root fuel parentDirfh
                deleteDir true none)
              (fun r2 =>
                Tr.bind (removeAllRecGo srv auth fuel r2.2.1)
                  (fun _ => rmDirRpcGo srv auth parentDirfh deleteDir))
          with
          | (r3, t3) => (r3, t1 ++ t3))

end NfsTarget

deriving instance DecidableEq for Except

namespace NfsTarget

/-- A request carries the standard header: `rpcvers=2`, the NFSv3 program
and version, its own procedure's number, the Target's credential, and the
AUTH_NULL verifier. -/
def goodReq (auth : Auth) (r : RpcReq) : Prop :=
  r.header = ⟨2, nfs3Prog, nfs3Vers, procOfBody r.body, auth, authNull⟩

/-- Every request in an operation's trace carries the standard header. -/
def goodTr (auth : Auth) (x : Tr α) : Prop :=
  ∀ req ∈ x.2, goodReq auth req

/-- An unchanged server: the attributes a LOOKUP reply reports for a
handle are the attributes a GETATTR on that handle returns (no server-side
change between the calls). -/
def Consistent (srv : Server) : Prop :=
  ∀ fh name r, srv.lookupFn fh name = .ok r →
    srv.getattrFn r.fh = .ok (paAttr r.attr)

/-- Claim C5's reading of the pagination loop, as a recursive
specification: issue one READDIRPLUS per page with `dircount = 512` and
`maxcount = 4096` at the given cursor; stop at `eof = true`; after a
non-eof page continue with the last decoded entry's cookie and that page's
preamble cookie-verifier, concatenating entries in arrival order.
`readDirPlusByFhGo` is proved equal to this function started at `(0, 0)`. -/
def readDirPagesSpec (srv : Server) (auth : Auth) (fh : FH) :
    Nat → Nat → Nat → Tr (List EntryPlus)
  | 0, _, _ => (none, [])
  | fuel + 1, cookie, verf =>
    let req : RpcReq := ⟨⟨2, nfs3Prog, nfs3Vers, procReadDirPlus, auth, authNull⟩,
      .readdirplus fh cookie verf 512 4096⟩
    match srv.readdirFn fh cookie verf 512 4096 with
    | .error e => (some (.error e), [req])
    | .ok page =>
      if page.eof then (some (.ok page.entries), [req])
      else
        match readDirPagesSpec srv auth fh fuel
            (lastCookie page.entries cookie) page.cookieVerf with
        | (none, t) => (none, req :: t)
        | (some (.error e), t) => (some (.error e), req :: t)
        | (some (.ok es), t) => (some (.ok (page.entries ++ es)), req :: t)

/-- A baseline server model whose every procedure fails with `NOENT`;
the concrete scenarios below override the procedures they exercise. -/
def errSrv : Server where
  lookupFn := fun _ _ => .error (.nfs nfs3ErrNoEnt)
  readlinkFn := fun _ => .error (.nfs nfs3ErrNoEnt)
  getattrFn := fun _ => .error (.nfs nfs3ErrNoEnt)
  accessFn := fun _ _ => .error (.nfs nfs3ErrNoEnt)
  readdirFn := fun _ _ _ _ _ => .error (.nfs nfs3ErrNoEnt)
  mkdirFn := fun _ _ _ => .error (.nfs nfs3ErrNoEnt)
  createFn := fun _ _ _ _ => .error (.nfs nfs3ErrNoEnt)
  removeFn := fun _ _ => .error (.nfs nfs3ErrNoEnt)
  rmdirFn := fun _ _ => .error (.nfs nfs3ErrNoEnt)
  renameFn := fun _ _ _ _ => .error (.nfs nfs3ErrNoEnt)
  setattrFn := fun _ _ => .error (.nfs nfs3ErrNoEnt)
  fsinfoFn := fun _ => .error (.nfs nfs3ErrNoEnt)

/-- Attributes of the self-referential symlink `a` (mode `0o120777`). -/
def symAttrA : Fattr := ⟨5, 0o120777, 1, 0, 0, 1, 11⟩

/-- Attributes of symlink `b` in the two-link cycle. -/
def symAttrB : Fattr := ⟨5, 0o120777, 1, 0, 0, 1, 12⟩

/-- A server with one entry under the root: symlink `a` (handle `[1]`)
whose target string is `"a"` — a self-referential symlink cycle. -/
def cycSrv : Server := { errSrv with
  lookupFn := fun fh name =>
    if fh = some [0] ∧ name = "a" then .ok ⟨some [1], some symAttrA, none⟩
    else .error (.nfs nfs3ErrNoEnt)
  readlinkFn := fun fh =>
    if fh = some [1] then .ok ⟨some symAttrA, "a"⟩
    else .error (.nfs nfs3ErrNoEnt) }

/-- A server with a two-link symlink cycle under the root:
`a` (handle `[1]`) points to `"b"`, `b` (handle `[2]`) points to `"a"`. -/
def twoCycSrv : Server := { errSrv with
  lookupFn := fun fh name =>
    if fh = some [0] ∧ name = "a" then .ok ⟨some [1], some symAttrA, none⟩
    else if fh = some [0] ∧ name = "b" then .ok ⟨some [2], some symAttrB, none⟩
    else .error (.nfs nfs3ErrNoEnt)
  readlinkFn := fun fh =>
    if fh = some [1] then .ok ⟨some symAttrA, "b"⟩
    else if fh = some [2] then .ok ⟨some symAttrB, "a"⟩
    else .error (.nfs nfs3ErrNoEnt) }

/-- A server that accepts any RENAME. -/
def renOkSrv : Server := { errSrv with
  renameFn := fun _ _ _ _ => .ok () }

/-- Attributes of the symlink `s` (its target is the file `f`). -/
def slAttrS : Fattr := ⟨5, 0o120777, 1, 0, 0, 4, 21⟩

/-- Attributes of the regular file `f`. -/
def fileAttrF : Fattr := ⟨1, 0o100644, 1, 0, 0, 9, 22⟩

/-- A server with a regular file `f` (handle `[4]`) and a symlink `s`
(handle `[3]`) pointing at `"f"`, with GETATTR agreeing with LOOKUP
(an unchanged server). -/
def slSrv : Server := { errSrv with
  lookupFn := fun fh name =>
    if fh = some [0] ∧ name = "s" then .ok ⟨some [3], some slAttrS, none⟩
    else if fh = some [0] ∧ name = "f" then .ok ⟨some [4], some fileAttrF, none⟩
    else .error (.nfs nfs3ErrNoEnt)
  readlinkFn := fun fh =>
    if fh = some [3] then .ok ⟨some slAttrS, "f"⟩
    else .error (.nfs nfs3ErrNoEnt)
  getattrFn := fun fh =>
    if fh = some [3] then .ok slAttrS
    else if fh = some [4] then .ok fileAttrF
    else .error (.nfs nfs3ErrNoEnt) }

/-- Attributes of the directory `r` being recursively removed. -/
def dirAttrR : Fattr := ⟨2, 0o040755, 2, 0, 0, 0, 30⟩

/-- Attributes of its subdirectory `sub` (post-op handle present). -/
def dirAttrSub : Fattr := ⟨2, 0o040755, 2, 0, 0, 0, 31⟩

/-- Attributes of its subdirectory `ghost` (post-op handle absent). -/
def dirAttrGhost : Fattr := ⟨2, 0o040755, 2, 0, 0, 0, 32⟩

/-- Attributes of its regular file `file`. -/
def fileAttrG : Fattr := ⟨1, 0o100644, 1, 0, 0, 5, 33⟩

/-- A server for the recursive-removal scenario: directory `r`
(handle `[5]`) under the root contains `.`, a subdirectory `sub` (handle
`[6]`, empty), a directory-typed entry `ghost` whose post-op handle is
absent, and a regular file `file`.  RMDIR of `r` in the root reports
`NOTEMPTY` (the model is stateless, so it does so on every call); the
per-entry RMDIRs and the REMOVE succeed. -/
def remSrv : Server := { errSrv with
  lookupFn := fun fh name =>
    if fh = some [0] ∧ name = "r" then .ok ⟨some [5], some dirAttrR, none⟩
    else .error (.nfs nfs3ErrNoEnt)
  readdirFn := fun fh _ _ _ _ =>
    if fh = some [5] then
      .ok ⟨9, [⟨1, ".", 1, some dirAttrR, some [5]⟩,
               ⟨2, "sub", 2, some dirAttrSub, some [6]⟩,
               ⟨3, "ghost", 3, some dirAttrGhost, none⟩,
               ⟨4, "file", 4, some fileAttrG, some [7]⟩], true⟩
    else if fh = some [6] then .ok ⟨7, [], true⟩
    else .error (.nfs nfs3ErrNotDir)
  rmdirFn := fun fh name =>
    if fh = some [0] ∧ name = "r" then .error (.nfs nfs3ErrNotEmpty)
    else if fh = some [5] ∧ (name = "sub" ∨ name = "ghost") then .ok ()
    else .error (.nfs nfs3ErrNoEnt)
  removeFn := fun fh name =>
    if fh = some [5] ∧ name = "file" then .ok ()
    else .error (.nfs nfs3ErrNoEnt) }

/-- A server for the counterexample to C4's entry classification:
directory `d` (handle `[8]`) contains a single directory-typed entry
`ghost` whose post-op handle is absent. -/
def cxSrv : Server := { errSrv with
  lookupFn := fun fh name =>
    if fh = some [0] ∧ name = "d" then .ok ⟨some [8], some dirAttrR, none⟩
    else .error (.nfs nfs3ErrNoEnt)
  readdirFn := fun fh _ _ _ _ =>
    if fh = some [8] then
      .ok ⟨3, [⟨5, "ghost", 5, some dirAttrGhost, none⟩], true⟩
    else .error (.nfs nfs3ErrNotDir)
  rmdirFn := fun fh name =>
    if fh = some [0] ∧ name = "d" then .error (.nfs nfs3ErrNotEmpty)
    else if fh = some [8] ∧ name = "ghost" then .ok ()
    else .error (.nfs nfs3ErrNoEnt) }

/-- A server whose RMDIR replies `STALE` for `g` in the root. -/
def staleSrv : Server := { errSrv with
  rmdirFn := fun fh name =>
    if fh = some [0] ∧ name = "g" then .error (.nfs nfs3ErrStale)
    else .error (.nfs nfs3ErrNoEnt) }

/-- A server whose MKDIR and CREATE succeed but omit the optional post-op
file handle. -/
def omitSrv : Server := { errSrv with
  mkdirFn := fun _ _ _ => .ok ⟨none, none⟩
  createFn := fun _ _ _ _ => .ok ⟨none, none⟩ }

/-- Whether a request body is a REMOVE. -/
def isRemoveBody : RpcBody → Bool
  | .remove _ _ => true
  | _ => false

end NfsTarget

namespace NfsTarget

/-- How a trailing slash transforms a finished resolution with
`follow-last = true`: errors are unchanged; a success keeps its fattr and
fh, while the final component becomes the empty string and the parent
handle becomes the resolved handle itself. -/
def slashResult : Except Err LookupRes → Except Err LookupRes
  | .error e => .error e
  | .ok res => .ok (res.1, res.2.1, "", res.2.1)

end NfsTarget

namespace NfsTarget

/-! ## General lemmas about the embedding -/

/-- The result component of a sequencing depends only on results. -/
theorem tr_bind_fst (x : Tr α) (f : α → Tr β) :
    (Tr.bind x f).1 = match x.1 with
      | none => none
      | some (.error e) => some (.error e)
      | some (.ok a) => (f a).1 := by
  obtain ⟨r, t⟩ := x
  cases r with
  | none => rfl
  | some ex =>
    cases ex with
    | error e => rfl
    | ok a =>
      show (match f a with | (r2, t2) => (r2, t ++ t2)).1 = (f a).1
      obtain ⟨r2, t2⟩ := f a
      rfl

/-- Unfolding `reparseSwallow` on an exhausted reparse. -/
theorem reparseSwallow_none (t2 : List RpcReq) (c : FH → Tr LookupRes) :
    reparseSwallow (none, t2) c = (none, t2) := rfl

/-- Unfolding `reparseSwallow` on a failed reparse: the error is dropped
and the loop continues with a nil handle. -/
theorem reparseSwallow_error (e : Err) (t2 : List RpcReq)
    (c : FH → Tr LookupRes) :
    reparseSwallow (some (.error e), t2) c = ((c none).1, t2 ++ (c none).2) := rfl

/-- Unfolding `reparseSwallow` on a successful reparse. -/
theorem reparseSwallow_ok (res : LookupRes) (t2 : List RpcReq)
    (c : FH → Tr LookupRes) :
    reparseSwallow (some (.ok res), t2) c
      = ((c res.2.1).1, t2 ++ (c res.2.1).2) := rfl

/-- Go `sameHandle` decides list equality. -/
theorem sameHandle_iff_eq : ∀ a b : Handle, sameHandle a b = true ↔ a = b := by
  intro a
  induction a with
  | nil =>
    intro b
    cases b with
    | nil => simp [sameHandle]
    | cons y ys => simp [sameHandle]
  | cons x xs ih =>
    intro b
    cases b with
    | nil => simp [sameHandle]
    | cons y ys =>
      have step : sameHandle (x :: xs) (y :: ys)
          = (decide (x = y) && sameHandle xs ys) := by
        by_cases hl : xs.length = ys.length <;>
          simp [sameHandle, hl, List.all_cons]
      rw [step]
      simp [ih ys, List.cons.injEq]

end NfsTarget

namespace NfsTarget

/-! ## C8 — `sameHandle` is an equivalence and is byte-wise equality -/

/-- C8: `sameHandle` is reflexive, symmetric and transitive on byte
strings, and `sameHandle a b` holds iff `a` and `b` have identical length
and identical content at every index. -/
theorem sameHandle_equivalence :
    (∀ a : Handle, sameHandle a a = true) ∧
    (∀ a b : Handle, sameHandle a b = sameHandle b a) ∧
    (∀ a b c : Handle, sameHandle a b = true → sameHandle b c = true →
      sameHandle a c = true) ∧
    (∀ a b : Handle, sameHandle a b = true ↔
      (a.length = b.length ∧
        ∀ (i : Nat) (h1 : i < a.length) (h2 : i < b.length),
          a.get ⟨i, h1⟩ = b.get ⟨i, h2⟩)) := by
  refine ⟨?_, ?_, ?_, ?_⟩
  · intro a
    exact (sameHandle_iff_eq a a).mpr rfl
  · intro a b
    by_cases h : sameHandle a b = true
    · rw [h, (sameHandle_iff_eq b a).mpr ((sameHandle_iff_eq a b).mp h).symm]
    · have h2 : ¬ sameHandle b a = true := fun hh =>
        h ((sameHandle_iff_eq a b).mpr ((sameHandle_iff_eq b a).mp hh).symm)
      simp only [Bool.not_eq_true] at h h2
      rw [h, h2]
  · intro a b c h1 h2
    exact (sameHandle_iff_eq a c).mpr
      (((sameHandle_iff_eq a b).mp h1).trans ((sameHandle_iff_eq b c).mp h2))
  · intro a b
    rw [sameHandle_iff_eq]
    constructor
    · rintro rfl
      exact ⟨rfl, fun i h1 h2 => rfl⟩
    · rintro ⟨hl, hg⟩
      exact List.ext_get hl hg

/-- Witness for C8: transitivity applied at concrete handles. -/
theorem sameHandle_equivalence_witness : sameHandle [3, 7] [3, 7] = true :=
  sameHandle_equivalence.2.2.1 [3, 7] [3, 7] [3, 7] (by decide) (by decide)

/-! ## C2 — `Rename("/", "/x")` -/

/-- C2 (refuting): resolving `"/"` leaves the mount root as the parent
handle and the empty string as the final name, so neither nil-guard in
`Rename` fires: `Rename("/", "/x")` issues one RENAME RPC with
`{root, ""} → {root, "x"}` and returns the server's reply instead of
failing with the rename-root error before any RPC. -/
theorem rename_root_issues_rename_rpc :
    RenameGo renOkSrv 7 (some [0]) 10 "/" "/x" =
      (some (.ok ()),
        [⟨⟨2, nfs3Prog, nfs3Vers, procRename, 7, authNull⟩,
          .rename (some [0]) "" (some [0]) "x"⟩]) := rfl

/-! ## C10 — MKDIR/CREATE replies without a post-op handle -/

/-- C10: when the server's MKDIR or CREATE reply succeeds but omits the
optional post-op file handle, `MkdirByParentFh` and `CreateByFh` return a
nil handle together with a nil error (and one RPC was issued). -/
theorem create_mkdir_nil_handle_nil_error (srv : Server) (auth : Auth)
    (fh : FH) (name : String) (perm : Nat) (rM : MkdirOk) (rC : CreateOk)
    (hM : srv.mkdirFn fh name ⟨some (perm &&& 0o777), none⟩ = .ok rM)
    (hMf : rM.fh = none)
    (hC : srv.createFn fh name 0 ⟨some (perm &&& 0o777), none⟩ = .ok rC)
    (hCf : rC.fh = none) :
    mkdirByParentFhGo srv auth fh name perm =
      (some (.ok none), [⟨⟨2, nfs3Prog, nfs3Vers, procMkdir, auth, authNull⟩,
        .mkdir fh name ⟨some (perm &&& 0o777), none⟩⟩]) ∧
    createByFhGo srv auth fh name perm =
      (some (.ok none), [⟨⟨2, nfs3Prog, nfs3Vers, procCreate, auth, authNull⟩,
        .create fh name 0 ⟨some (perm &&& 0o777), none⟩⟩]) := by
  constructor
  · simp [mkdirByParentFhGo, Tr.call, hM, hMf, Except.map]
  · simp [createByFhGo, Tr.call, hC, hCf, Except.map]

/-- Witness for C10 at a concrete server omitting both handles. -/
theorem create_mkdir_nil_handle_nil_error_witness :
    mkdirByParentFhGo omitSrv 7 (some [0]) "d" 0o755 =
      (some (.ok none), [⟨⟨2, nfs3Prog, nfs3Vers, procMkdir, 7, authNull⟩,
        .mkdir (some [0]) "d" ⟨some 0o755, none⟩⟩]) ∧
    createByFhGo omitSrv 7 (some [0]) "d" 0o755 =
      (some (.ok none), [⟨⟨2, nfs3Prog, nfs3Vers, procCreate, 7, authNull⟩,
        .create (some [0]) "d" 0 ⟨some 0o755, none⟩⟩]) :=
  create_mkdir_nil_handle_nil_error omitSrv 7 (some [0]) "d" 0o755
    ⟨none, none⟩ ⟨none, none⟩ rfl rfl rfl rfl

/-! ## C9 — a failed final-symlink resolution is discarded -/

/-- C9: when the final component of a path is a symlink and the recursive
resolution of its target fails with any error, `lookupInner` discards the
error: `Lookup` returns a nil error, a nil handle, and the symlink's own
attributes. -/
theorem lookup_swallows_final_symlink_resolution_error
    (srv : Server) (auth : Auth) (root : FH) (fuel : Nat) (p name : String)
    (lr : LookupOk) (rl : ReadlinkOk) (e : Err) (t2 : List RpcReq)
    (hsplit : splitOnSlash p = [name])
    (hdot : name ≠ ".") (hempty : name ≠ "")
    (hlk : srv.lookupFn root name = .ok lr)
    (hsym : isSymlinkMode (paAttr lr.attr).fileMode = true)
    (hrl : srv.readlinkFn lr.fh = .ok rl)
    (hre : lookupListGo srv auth root fuel true lr.fh none root
        (splitOnSlash rl.target) = (some (.error e), t2)) :
    (LookupGo srv auth root (fuel + 1) p).1
      = some (.ok (some (paAttr lr.attr), none)) := by
  simp only [LookupGo, lookupInnerGo, hsplit]
  simp [lookupListGo, Tr.bind, Tr.call, Tr.pure, reparseSwallow,
    hlk, hsym, hrl, hre, hdot, hempty]

/-- Witness for C9: the self-cycle server, where the reparse fails with
the cycle error and `Lookup` still reports success. -/
theorem lookup_swallows_final_symlink_resolution_error_witness :
    (LookupGo cycSrv 7 (some [0]) 6 "a").1 = some (.ok (some symAttrA, none)) :=
  lookup_swallows_final_symlink_resolution_error cycSrv 7 (some [0]) 5 "a" "a"
    ⟨some [1], some symAttrA, none⟩ ⟨some symAttrA, "a"⟩ (.msg "recursed symlink")
    [⟨⟨2, nfs3Prog, nfs3Vers, procLookup, 7, authNull⟩, .lookup (some [0]) "a"⟩]
    rfl (by decide) (by decide) rfl rfl rfl rfl

end NfsTarget

namespace NfsTarget

/-! ## C1 — symlink cycles are neither reported nor always terminated -/

/-- On the two-link cycle `a → b → a`, the resolver never terminates: the
cycle check only compares against the immediately enclosing
`lookupOrigin`, which alternates between the two symlink handles and never
matches the handle just resolved. -/
theorem twoCyc_loops :
    ∀ fuel : Nat,
      (lookupListGo twoCycSrv 7 (some [0]) fuel true none none (some [0])
        ["a"]).1 = none ∧
      (lookupListGo twoCycSrv 7 (some [0]) fuel true (some [2]) none (some [0])
        ["a"]).1 = none ∧
      (lookupListGo twoCycSrv 7 (some [0]) fuel true (some [1]) none (some [0])
        ["b"]).1 = none := by
  have l1 : twoCycSrv.lookupFn (some [0]) "a"
      = .ok ⟨some [1], some symAttrA, none⟩ := rfl
  have l2 : twoCycSrv.lookupFn (some [0]) "b"
      = .ok ⟨some [2], some symAttrB, none⟩ := rfl
  have r1 : twoCycSrv.readlinkFn (some [1]) = .ok ⟨some symAttrA, "b"⟩ := rfl
  have r2 : twoCycSrv.readlinkFn (some [2]) = .ok ⟨some symAttrB, "a"⟩ := rfl
  have s1 : isSymlinkMode (paAttr (some symAttrA)).fileMode = true := rfl
  have s2 : isSymlinkMode (paAttr (some symAttrB)).fileMode = true := rfl
  have c1 : sameHandleFH (some [1]) (some [2]) = false := rfl
  have c2 : sameHandleFH (some [2]) (some [1]) = false := rfl
  have sa : splitOnSlash "a" = ["a"] := rfl
  have sb : splitOnSlash "b" = ["b"] := rfl
  intro fuel
  induction fuel with
  | zero => exact ⟨rfl, rfl, rfl⟩
  | succ n ih =>
    obtain ⟨ihA, ihA2, ihB⟩ := ih
    refine ⟨?_, ?_, ?_⟩
    · rcases hb : lookupListGo twoCycSrv 7 (some [0]) n true (some [1]) none
          (some [0]) ["b"] with ⟨r, t⟩
      rw [hb] at ihB
      simp only at ihB
      subst ihB
      simp [lookupListGo, Tr.bind, Tr.call, Tr.pure, reparseSwallow,
        l1, r1, s1, sb, hb]
    · rcases hb : lookupListGo twoCycSrv 7 (some [0]) n true (some [1]) none
          (some [0]) ["b"] with ⟨r, t⟩
      rw [hb] at ihB
      simp only at ihB
      subst ihB
      simp [lookupListGo, Tr.bind, Tr.call, Tr.pure, reparseSwallow,
        l1, r1, s1, c1, sb, hb]
    · rcases ha : lookupListGo twoCycSrv 7 (some [0]) n true (some [2]) none
          (some [0]) ["a"] with ⟨r, t⟩
      rw [ha] at ihA2
      simp only at ihA2
      subst ihA2
      simp [lookupListGo, Tr.bind, Tr.call, Tr.pure, reparseSwallow,
        l2, r2, s2, c2, sa, ha]

/-- C1 (refuting): on the self-cycle `a → a`, `Lookup` returns a nil
error (the cycle error raised inside the reparse is discarded at
target.go:168) — it does not fail with the symlink-loop error; and on the
two-link cycle `a → b → a`, resolution runs out of any amount of fuel:
the Go code never terminates, issuing LOOKUP/READLINK RPCs forever. -/
theorem symlink_cycle_error_discarded :
    LookupGo cycSrv 7 (some [0]) 10 "a" =
      (some (.ok (some symAttrA, none)),
       [⟨⟨2, nfs3Prog, nfs3Vers, procLookup, 7, authNull⟩, .lookup (some [0]) "a"⟩,
        ⟨⟨2, nfs3Prog, nfs3Vers, procReadlink, 7, authNull⟩, .readlink (some [1])⟩,
        ⟨⟨2, nfs3Prog, nfs3Vers, procLookup, 7, authNull⟩,
          .lookup (some [0]) "a"⟩]) ∧
    (∀ fuel, (LookupGo twoCycSrv 7 (some [0]) fuel "a").1 = none) := by
  constructor
  · rfl
  · intro fuel
    have h := (twoCyc_loops fuel).1
    rcases he : lookupListGo twoCycSrv 7 (some [0]) fuel true none none
        (some [0]) ["a"] with ⟨r, t⟩
    rw [he] at h
    simp only at h
    subst h
    simp [LookupGo, lookupInnerGo, show splitOnSlash "a" = ["a"] from rfl,
      Tr.bind, he]

end NfsTarget

namespace NfsTarget

/-! ## C5 — READDIRPLUS pagination -/

/-- The Go pagination loop at any cursor equals the specification loop,
with the accumulated entries prepended. -/
theorem readDirPlusLoop_eq_spec (srv : Server) (auth : Auth) (fh : FH) :
    ∀ (fuel cookie verf : Nat) (acc : List EntryPlus),
      readDirPlusLoopGo srv auth fh fuel cookie verf acc =
        ((readDirPagesSpec srv auth fh fuel cookie verf).1.map
            (fun x => x.map (fun es => acc ++ es)),
         (readDirPagesSpec srv auth fh fuel cookie verf).2) := by
  intro fuel
  induction fuel with
  | zero =>
    intro c v acc
    rfl
  | succ n ih =>
    intro c v acc
    simp only [readDirPlusLoopGo, readDirPagesSpec]
    rcases hp : srv.readdirFn fh c v 512 4096 with e | page
    · simp [Tr.bind, Tr.call, hp, Except.map]
    · simp only [Tr.bind, Tr.call, hp]
      by_cases he : page.eof
      · simp [he, Tr.pure, Except.map]
      · simp only [he, if_false, Bool.false_eq_true]
        rw [ih]
        rcases hs : readDirPagesSpec srv auth fh n (lastCookie page.entries c)
            page.cookieVerf with ⟨r, t⟩
        cases r with
        | none => simp
        | some ex =>
          cases ex with
          | error e => simp [Except.map]
          | ok es => simp [Except.map, List.append_assoc]

/-- C5: `ReadDirPlusByFh` equals the specification loop started at
cookie 0 and cookie-verifier 0: every page is requested with
`dircount = 512` and `maxcount = 4096`; after a page whose `eof` is false
the next request carries the last decoded entry's cookie and that page's
preamble verifier; entries are concatenated in arrival order until a page
ends with `eof = true`. -/
theorem readdirplus_pagination_follows_spec (srv : Server) (auth : Auth)
    (fuel : Nat) (fh : FH) :
    readDirPlusByFhGo srv auth fuel fh = readDirPagesSpec srv auth fh fuel 0 0 := by
  have h := readDirPlusLoop_eq_spec srv auth fh fuel 0 0 []
  rcases hs : readDirPagesSpec srv auth fh fuel 0 0 with ⟨r, t⟩
  rw [hs] at h
  cases r with
  | none => simpa [readDirPlusByFhGo] using h
  | some ex =>
    cases ex with
    | error e => simpa [readDirPlusByFhGo, Except.map] using h
    | ok es => simpa [readDirPlusByFhGo, Except.map] using h

end NfsTarget

namespace NfsTarget

/-! ## C3 — `Lookup` vs `GetAttr` attributes -/

/-- Loop invariant of the resolver on an unchanged server: whenever the
loop completes with a non-symlink attribute value, that value is exactly
what GETATTR returns for the handle the loop reports. -/
theorem lookupListGo_attrs_consistent (srv : Server) (auth : Auth) (root : FH)
    (hc : Consistent srv) :
    ∀ (fuel : Nat) (L : Bool) (O : FH) (fa : Option Fattr) (fh : FH)
      (ds : List String) (res : LookupRes) (t : List RpcReq),
      (∀ a, fa = some a → isSymlinkMode a.fileMode = false →
        srv.getattrFn fh = .ok a) →
      lookupListGo srv auth root fuel L O fa fh ds = (some (.ok res), t) →
      ∀ a, res.1 = some a → isSymlinkMode a.fileMode = false →
        srv.getattrFn res.2.1 = .ok a := by
  intro fuel
  induction fuel with
  | zero =>
    intro L O fa fh ds res t hP h
    exact absurd (congrArg Prod.fst h) (by simp [lookupListGo])
  | succ n ih =>
    intro L O fa fh ds res t hP h
    cases ds with
    | nil =>
      simp only [lookupListGo, Tr.pure] at h
      have hr : some (Except.ok ((fa, fh, "", none) : LookupRes))
          = some (.ok res) := congrArg Prod.fst h
      simp only [Option.some.injEq, Except.ok.injEq] at hr
      subst hr
      exact hP
    | cons d rest =>
      simp only [lookupListGo] at h
      by_cases hb : (rest.isEmpty && !L) = true
      · rw [if_pos hb] at h
        have hr : some (Except.ok ((none, none, d, fh) : LookupRes))
            = some (.ok res) := congrArg Prod.fst h
        simp only [Option.some.injEq, Except.ok.injEq] at hr
        subst hr
        intro a ha
        exact absurd ha (by simp)
      · rw [if_neg hb] at h
        by_cases hdot : (d = "." || d = "") = true
        · rw [if_pos hdot] at h
          by_cases hl : rest.isEmpty = true
          · rw [if_pos hl] at h
            simp only [Tr.pure] at h
            have hr : some (Except.ok ((fa, fh, d, fh) : LookupRes))
                = some (.ok res) := congrArg Prod.fst h
            simp only [Option.some.injEq, Except.ok.injEq] at hr
            subst hr
            exact hP
          · rw [if_neg hl] at h
            exact ih L O fa fh rest res t hP h
        · rw [if_neg hdot] at h
          rcases hlk : srv.lookupFn fh d with e | lr
          · rw [hlk] at h
            simp [Tr.bind, Tr.call] at h
          · rw [hlk] at h
            simp only [Tr.bind, Tr.call] at h
            by_cases hsym : isSymlinkMode (paAttr lr.attr).fileMode = true
            · rw [if_pos hsym] at h
              by_cases hcyc : (O.isSome && sameHandleFH lr.fh O) = true
              · rw [if_pos hcyc] at h
                simp [Tr.fail] at h
              · rw [if_neg hcyc] at h
                rcases hrl : srv.readlinkFn lr.fh with e2 | rl
                · rw [hrl] at h
                  simp [Tr.bind, Tr.call] at h
                · rw [hrl] at h
                  simp only [Tr.bind, Tr.call] at h
                  rcases hre : lookupListGo srv auth root n true lr.fh none root
                      (splitOnSlash rl.target) with ⟨rr, tt⟩
                  rw [hre] at h
                  cases rr with
                  | none =>
                    rw [reparseSwallow_none] at h
                    exact absurd (congrArg Prod.fst h) (by simp)
                  | some ex =>
                    cases ex with
                    | error e3 =>
                      rw [reparseSwallow_error] at h
                      have h1 : (if rest.isEmpty = true then
                            Tr.pure ((some (paAttr lr.attr), none, d, fh)
                              : LookupRes)
                          else lookupListGo srv auth root n L O
                            (some (paAttr lr.attr)) none rest).1
                          = some (.ok res) := congrArg Prod.fst h
                      by_cases hl : rest.isEmpty = true
                      · rw [if_pos hl] at h1
                        simp only [Tr.pure, Option.some.injEq,
                          Except.ok.injEq] at h1
                        subst h1
                        intro a ha hs
                        have haa : a = paAttr lr.attr := by simpa using ha.symm
                        rw [haa, hsym] at hs
                        exact absurd hs (by simp)
                      · rw [if_neg hl] at h1
                        rcases hcont : lookupListGo srv auth root n L O
                            (some (paAttr lr.attr)) none rest with ⟨r3, t3⟩
                        rw [hcont] at h1
                        replace h1 : r3 = some (.ok res) := h1
                        rw [h1] at hcont
                        refine ih L O (some (paAttr lr.attr)) none rest res t3
                          ?_ hcont
                        intro a ha hs
                        have haa : a = paAttr lr.attr := by simpa using ha.symm
                        rw [haa, hsym] at hs
                        exact absurd hs (by simp)
                    | ok rr2 =>
                      rw [reparseSwallow_ok] at h
                      have h1 : (if rest.isEmpty = true then
                            Tr.pure ((some (paAttr lr.attr), rr2.2.1, d, fh)
                              : LookupRes)
                          else lookupListGo srv auth root n L O
                            (some (paAttr lr.attr)) rr2.2.1 rest).1
                          = some (.ok res) := congrArg Prod.fst h
                      by_cases hl : rest.isEmpty = true
                      · rw [if_pos hl] at h1
                        simp only [Tr.pure, Option.some.injEq,
                          Except.ok.injEq] at h1
                        subst h1
                        intro a ha hs
                        have haa : a = paAttr lr.attr := by simpa using ha.symm
                        rw [haa, hsym] at hs
                        exact absurd hs (by simp)
                      · rw [if_neg hl] at h1
                        rcases hcont : lookupListGo srv auth root n L O
                            (some (paAttr lr.attr)) rr2.2.1 rest with ⟨r3, t3⟩
                        rw [hcont] at h1
                        replace h1 : r3 = some (.ok res) := h1
                        rw [h1] at hcont
                        refine ih L O (some (paAttr lr.attr)) rr2.2.1 rest res t3
                          ?_ hcont
                        intro a ha hs
                        have haa : a = paAttr lr.attr := by simpa using ha.symm
                        rw [haa, hsym] at hs
                        exact absurd hs (by simp)
            · rw [if_neg hsym] at h
              by_cases hl : rest.isEmpty = true
              · rw [if_pos hl] at h
                simp only [Tr.pure] at h
                have hr : some (Except.ok
                      ((some (paAttr lr.attr), lr.fh, d, fh) : LookupRes))
                    = some (.ok res) := congrArg Prod.fst h
                simp only [Option.some.injEq, Except.ok.injEq] at hr
                subst hr
                intro a ha hs
                have haa : a = paAttr lr.attr := by simpa using ha.symm
                subst haa
                exact hc fh d lr hlk
              · rw [if_neg hl] at h
                rcases hcont : lookupListGo srv auth root n L O
                    (some (paAttr lr.attr)) lr.fh rest with ⟨r3, t3⟩
                rw [hcont] at h
                have hr3 : r3 = some (.ok res) := congrArg Prod.fst h
                rw [hr3] at hcont
                refine ih L O (some (paAttr lr.attr)) lr.fh rest res t3 ?_ hcont
                intro a ha hs
                have haa : a = paAttr lr.attr := by simpa using ha.symm
                subst haa
                exact hc fh d lr hlk

/-- C3 (refuting): on an unchanged server where the final component `s`
is a symlink the resolver follows, `Lookup("s")` returns the symlink's
own attributes with the target's handle, while `GetAttr("s")` returns the
target's attributes — they disagree on `type` and `fileid`. -/
theorem lookup_getattr_disagree_on_final_symlink :
    (LookupGo slSrv 7 (some [0]) 10 "s").1 = some (.ok (some slAttrS, some [4])) ∧
    (GetAttrGo slSrv 7 (some [0]) 10 "s").1 = some (.ok (fileAttrF, some [4])) ∧
    slAttrS.ftype ≠ fileAttrF.ftype ∧ slAttrS.fileid ≠ fileAttrF.fileid := by
  refine ⟨rfl, rfl, by decide, by decide⟩

/-- C3 (amended): on an unchanged server, whenever `Lookup(path)` succeeds
with attributes that are not of symlink type, `GetAttr(path)` succeeds
with exactly those attributes and the same handle — so the two agree on
`type`, `fileid`, `mode`, `nlink` and `size`.  (When the final component
is a symlink that the resolver follows, `Lookup` keeps the symlink's own
attributes; the counterexample shows the two calls can then disagree.) -/
theorem lookup_getattr_agree_unless_final_symlink
    (srv : Server) (auth : Auth) (root : FH) (fuel : Nat) (p : String)
    (a : Fattr) (fh : FH)
    (hc : Consistent srv)
    (hlu : (LookupGo srv auth root fuel p).1 = some (.ok (some a, fh)))
    (hns : isSymlinkMode a.fileMode = false) :
    (GetAttrGo srv auth root fuel p).1 = some (.ok (a, fh)) := by
  rcases hi : lookupInnerGo srv auth root fuel root p true none with ⟨r, t⟩
  cases r with
  | none =>
    have hz : (LookupGo srv auth root fuel p).1 = none := by
      simp only [LookupGo]
      rw [hi]
      rfl
    rw [hz] at hlu
    exact Option.noConfusion hlu
  | some ex =>
    cases ex with
    | error e =>
      have hz : (LookupGo srv auth root fuel p).1 = some (.error e) := by
        simp only [LookupGo]
        rw [hi]
        rfl
      rw [hz] at hlu
      simp at hlu
    | ok res =>
      have hz : (LookupGo srv auth root fuel p).1
          = some (.ok (res.1, res.2.1)) := by
        simp only [LookupGo]
        rw [hi]
        rfl
      rw [hz] at hlu
      simp only [Option.some.injEq, Except.ok.injEq, Prod.mk.injEq] at hlu
      obtain ⟨h1, h2⟩ := hlu
      have hg : srv.getattrFn fh = .ok a := by
        have hinv := lookupListGo_attrs_consistent srv auth root hc fuel true
          none none root (splitOnSlash p) res t
          (by intro a ha hs; cases ha) hi a h1 hns
        rwa [h2] at hinv
      have hL : LookupGo srv auth root fuel p = (some (.ok (some a, fh)), t) := by
        simp only [LookupGo]
        rw [hi]
        simp [Tr.bind, Tr.pure, h1, h2]
      simp only [GetAttrGo, getAttrFhGo, Tr.call]
      rw [hL]
      simp [Tr.bind, Tr.pure, Tr.call, hg]

/-- Witness for the amended C3 at the unchanged server `slSrv` and the
regular file `f`. -/
theorem lookup_getattr_agree_unless_final_symlink_witness :
    (GetAttrGo slSrv 7 (some [0]) 10 "f").1 = some (.ok (fileAttrF, some [4])) := by
  refine lookup_getattr_agree_unless_final_symlink slSrv 7 (some [0]) 10 "f"
    fileAttrF (some [4]) ?_ rfl rfl
  intro fh name r h
  simp only [slSrv, errSrv] at h
  split_ifs at h with h1 h2
  · obtain ⟨rfl⟩ := Except.ok.inj h
    rfl
  · obtain ⟨rfl⟩ := Except.ok.inj h
    rfl

end NfsTarget

namespace NfsTarget

/-! ## C4 — `RemoveAll` -/

/-- C4 (refuting): on a directory containing a single directory-typed
entry `ghost` whose post-op handle is absent, the recursive helper issues
an RMDIR for it (no recursion) and never issues any REMOVE — the claim
says entries other than directory-type-with-present-handle get REMOVE. -/
theorem removeAll_rmdirs_handleless_dir_entry :
    ((RemoveAllGo cxSrv 7 (some [0]) 10 "d").2.map RpcReq.body =
      [.rmdir (some [0]) "d", .lookup (some [0]) "d",
       .readdirplus (some [8]) 0 0 512 4096, .rmdir (some [8]) "ghost",
       .rmdir (some [0]) "d"]) ∧
    (RpcBody.rmdir (some [8]) "ghost"
      ∈ (RemoveAllGo cxSrv 7 (some [0]) 10 "d").2.map RpcReq.body) ∧
    ((RemoveAllGo cxSrv 7 (some [0]) 10 "d").2.all
      (fun req => !isRemoveBody req.body) = true) := by
  refine ⟨rfl, by decide, by decide⟩

/-- C4 (amended): `RemoveAll` first attempts `RMDIR(parent, name)`;
success, or an error `os.IsNotExist` recognizes (NOENT or STALE, §7),
returns success with no further RPC; NOTDIR is surfaced unchanged.
Otherwise (concrete run on `remSrv`, fuel 20): it resolves the
directory's handle, deletes the listing bottom-up — recursing then RMDIR
for the directory-typed entry with a present handle, RMDIR without
recursion for the directory-typed entry with an absent handle, REMOVE for
the regular file, skipping `.` — and finally RMDIRs the original name
(the stateless server model answers that final RMDIR with the same
NOTEMPTY as the first attempt, which the run surfaces). -/
theorem removeAll_cases :
    (∀ (srv : Server) (auth : Auth) (root : FH) (fuel : Nat) (p name : String)
       (parent : FH) (fa : Option Fattr) (fhv : FH) (t0 : List RpcReq),
       lookupInnerGo srv auth root fuel root p false none
         = (some (.ok (fa, fhv, name, parent)), t0) →
       ((srv.rmdirFn parent name = .ok () →
         RemoveAllGo srv auth root fuel p = (some (.ok ()),
           t0 ++ [⟨⟨2, nfs3Prog, nfs3Vers, procRmDir, auth, authNull⟩,
             .rmdir parent name⟩])) ∧
        (∀ e, srv.rmdirFn parent name = .error e → isNotExistErr e = true →
          RemoveAllGo srv auth root fuel p = (some (.ok ()),
            t0 ++ [⟨⟨2, nfs3Prog, nfs3Vers, procRmDir, auth, authNull⟩,
              .rmdir parent name⟩])) ∧
        (∀ e, srv.rmdirFn parent name = .error e → isNotDirErr e = true →
          RemoveAllGo srv auth root fuel p = (some (.error e),
            t0 ++ [⟨⟨2, nfs3Prog, nfs3Vers, procRmDir, auth, authNull⟩,
              .rmdir parent name⟩])))) ∧
    RemoveAllGo remSrv 7 (some [0]) 20 "r" =
      (some (.error (.nfs nfs3ErrNotEmpty)),
       [⟨⟨2, nfs3Prog, nfs3Vers, procRmDir, 7, authNull⟩, .rmdir (some [0]) "r"⟩,
        ⟨⟨2, nfs3Prog, nfs3Vers, procLookup, 7, authNull⟩, .lookup (some [0]) "r"⟩,
        ⟨⟨2, nfs3Prog, nfs3Vers, procReadDirPlus, 7, authNull⟩,
          .readdirplus (some [5]) 0 0 512 4096⟩,
        ⟨⟨2, nfs3Prog, nfs3Vers, procReadDirPlus, 7, authNull⟩,
          .readdirplus (some [6]) 0 0 512 4096⟩,
        ⟨⟨2, nfs3Prog, nfs3Vers, procRmDir, 7, authNull⟩, .rmdir (some [5]) "sub"⟩,
        ⟨⟨2, nfs3Prog, nfs3Vers, procRmDir, 7, authNull⟩, .rmdir (some [5]) "ghost"⟩,
        ⟨⟨2, nfs3Prog, nfs3Vers, procRemove, 7, authNull⟩, .remove (some [5]) "file"⟩,
        ⟨⟨2, nfs3Prog, nfs3Vers, procRmDir, 7, authNull⟩, .rmdir (some [0]) "r"⟩]) := by
  constructor
  · intro srv auth root fuel p name parent fa fhv t0 hres
    refine ⟨?_, ?_, ?_⟩
    · intro hok
      simp only [RemoveAllGo]
      rw [hres]
      simp [Tr.bind, rmDirRpcGo, Tr.call, hok]
    · intro e he hnx
      simp only [RemoveAllGo]
      rw [hres]
      simp [Tr.bind, rmDirRpcGo, Tr.call, he, hnx]
    · intro e he hnd
      have hnx : isNotExistErr e = false := by
        simp only [isNotDirErr, decide_eq_true_eq] at hnd
        subst hnd
        decide
      simp only [RemoveAllGo]
      rw [hres]
      simp [Tr.bind, rmDirRpcGo, Tr.call, he, hnx, hnd]
  · rfl

/-- Witness for C4's universal cases: a STALE first RMDIR yields
success. -/
theorem removeAll_cases_witness :
    RemoveAllGo staleSrv 7 (some [0]) 5 "g" =
      (some (.ok ()),
       [⟨⟨2, nfs3Prog, nfs3Vers, procRmDir, 7, authNull⟩,
         .rmdir (some [0]) "g"⟩]) :=
  ((removeAll_cases.1 staleSrv 7 (some [0]) 5 "g" "g" (some [0]) none none []
    rfl).2.1 (.nfs nfs3ErrStale) rfl rfl)

end NfsTarget

namespace NfsTarget

/-! ## C6 — empty and `.` components, trailing slashes, empty path -/

/-- C6 (refuting): with `follow-last = true` and path `f` resolving to a
regular file, the trailing-slash variant returns the same fattr and
handle but a different final-component (`""` instead of `"f"`) and a
different parent handle (the file's own handle instead of the root), so
the full 4-tuple results are not the same. -/
theorem trailing_slash_changes_name_and_parent :
    lookupInnerGo slSrv 7 (some [0]) 10 (some [0]) "f" true none =
      (some (.ok (some fileAttrF, some [4], "f", some [0])),
       [⟨⟨2, nfs3Prog, nfs3Vers, procLookup, 7, authNull⟩,
         .lookup (some [0]) "f"⟩]) ∧
    lookupInnerGo slSrv 7 (some [0]) 10 (some [0]) "f/" true none =
      (some (.ok (some fileAttrF, some [4], "", some [4])),
       [⟨⟨2, nfs3Prog, nfs3Vers, procLookup, 7, authNull⟩,
         .lookup (some [0]) "f"⟩]) ∧
    ("f" : String) ≠ "" ∧ (some [0] : FH) ≠ some [4] := by
  refine ⟨rfl, rfl, by decide, by decide⟩

/-- Go `splitChars` never produces the empty list. -/
theorem splitChars_ne_nil : ∀ l : List Char, splitChars l ≠ [] := by
  intro l
  cases l with
  | nil => simp [splitChars]
  | cons c rest =>
    simp only [splitChars]
    rcases h : splitChars rest with _ | ⟨seg, segs⟩
    · simp
    · by_cases hc : c = '/' <;> simp [hc]

/-- Appending a slash appends one empty segment. -/
theorem splitChars_append_slash :
    ∀ l : List Char, splitChars (l ++ ['/']) = splitChars l ++ [[]] := by
  intro l
  induction l with
  | nil => rfl
  | cons c rest ih =>
    show splitChars (c :: (rest ++ ['/'])) = splitChars (c :: rest) ++ [[]]
    simp only [splitChars]
    rcases h : splitChars rest with _ | ⟨seg, segs⟩
    · exact absurd h (splitChars_ne_nil rest)
    · rw [h] at ih
      simp only [ih]
      by_cases hc : c = '/' <;> simp [hc]

/-- A trailing slash on the path string appends one empty component. -/
theorem splitOnSlash_append_slash (p : String) :
    splitOnSlash (p ++ "/") = splitOnSlash p ++ [""] := by
  simp only [splitOnSlash, String.data_append]
  rw [splitChars_append_slash]
  simp

end NfsTarget

namespace NfsTarget

/-- Fuel monotonicity: a resolution that finishes at some fuel finishes
identically (same result, same request trace) with more fuel. -/
theorem lookupListGo_fuel_mono (srv : Server) (auth : Auth) (root : FH) :
    ∀ (fuel : Nat) (L : Bool) (O : FH) (fa : Option Fattr) (fh : FH)
      (ds : List String) (r : Except Err LookupRes) (t : List RpcReq),
      lookupListGo srv auth root fuel L O fa fh ds = (some r, t) →
      lookupListGo srv auth root (fuel + 1) L O fa fh ds = (some r, t) := by
  intro fuel
  induction fuel with
  | zero =>
    intro L O fa fh ds r t h
    exact absurd (congrArg Prod.fst h) (by simp [lookupListGo])
  | succ n ih =>
    intro L O fa fh ds r t h
    cases ds with
    | nil => exact h
    | cons d rest =>
      simp only [lookupListGo] at h ⊢
      by_cases hb : (rest.isEmpty && !L) = true
      · rw [if_pos hb] at h ⊢
        exact h
      · rw [if_neg hb] at h ⊢
        by_cases hdot : (d = "." || d = "") = true
        · rw [if_pos hdot] at h ⊢
          by_cases hl : rest.isEmpty = true
          · rw [if_pos hl] at h ⊢
            exact h
          · rw [if_neg hl] at h ⊢
            exact ih L O fa fh rest r t h
        · rw [if_neg hdot] at h ⊢
          rcases hlk : srv.lookupFn fh d with e | lr
          · rw [hlk] at h
            exact h
          · rw [hlk] at h
            simp only [Tr.bind, Tr.call] at h ⊢
            by_cases hsym : isSymlinkMode (paAttr lr.attr).fileMode = true
            · rw [if_pos hsym] at h ⊢
              by_cases hcyc : (O.isSome && sameHandleFH lr.fh O) = true
              · rw [if_pos hcyc] at h ⊢
                exact h
              · rw [if_neg hcyc] at h ⊢
                rcases hrl : srv.readlinkFn lr.fh with e2 | rl
                · rw [hrl] at h
                  exact h
                · rw [hrl] at h
                  simp only [Tr.bind, Tr.call] at h ⊢
                  rcases hre : lookupListGo srv auth root n true lr.fh none root
                      (splitOnSlash rl.target) with ⟨rr, tt⟩
                  rw [hre] at h
                  cases rr with
                  | none =>
                    rw [reparseSwallow_none] at h
                    exact absurd (congrArg Prod.fst h) (by simp)
                  | some ex =>
                    rw [ih true lr.fh none root (splitOnSlash rl.target) ex tt hre]
                    cases ex with
                    | error e3 =>
                      rw [reparseSwallow_error] at h ⊢
                      simp only [] at h ⊢
                      by_cases hl : rest.isEmpty = true
                      · rw [if_pos hl] at h ⊢
                        exact h
                      · rw [if_neg hl] at h ⊢
                        rcases hcont : lookupListGo srv auth root n L O
                            (some (paAttr lr.attr)) none rest with ⟨r3, t3⟩
                        rw [hcont] at h
                        cases r3 with
                        | none => exact absurd (congrArg Prod.fst h) (by simp)
                        | some r4 =>
                          rw [ih L O (some (paAttr lr.attr)) none rest r4 t3 hcont]
                          exact h
                    | ok rr2 =>
                      rw [reparseSwallow_ok] at h ⊢
                      simp only [] at h ⊢
                      by_cases hl : rest.isEmpty = true
                      · rw [if_pos hl] at h ⊢
                        exact h
                      · rw [if_neg hl] at h ⊢
                        rcases hcont : lookupListGo srv auth root n L O
                            (some (paAttr lr.attr)) rr2.2.1 rest with ⟨r3, t3⟩
                        rw [hcont] at h
                        cases r3 with
                        | none => exact absurd (congrArg Prod.fst h) (by simp)
                        | some r4 =>
                          rw [ih L O (some (paAttr lr.attr)) rr2.2.1 rest r4 t3
                            hcont]
                          exact h
            · rw [if_neg hsym] at h ⊢
              by_cases hl : rest.isEmpty = true
              · rw [if_pos hl] at h ⊢
                exact h
              · rw [if_neg hl] at h ⊢
                rcases hcont : lookupListGo srv auth root n L O
                    (some (paAttr lr.attr)) lr.fh rest with ⟨r3, t3⟩
                rw [hcont] at h
                cases r3 with
                | none => exact absurd (congrArg Prod.fst h) (by simp)
                | some r4 =>
                  rw [ih L O (some (paAttr lr.attr)) lr.fh rest r4 t3 hcont]
                  exact h


/-- Appending an empty final component to a finished `follow-last = true`
resolution keeps its fattr, fh, error and trace, and moves the
final-component/parent pair as `slashResult` describes. -/
theorem lookupListGo_trailing_empty (srv : Server) (auth : Auth) (root : FH) :
    ∀ (fuel : Nat) (O : FH) (fa : Option Fattr) (fh : FH) (ds : List String)
      (r : Except Err LookupRes) (t : List RpcReq),
      lookupListGo srv auth root fuel true O fa fh ds = (some r, t) →
      lookupListGo srv auth root (fuel + 1) true O fa fh (ds ++ [""])
        = (some (slashResult r), t) := by
  intro fuel
  induction fuel with
  | zero =>
    intro O fa fh ds r t h
    exact absurd (congrArg Prod.fst h) (by simp [lookupListGo])
  | succ n ih =>
    intro O fa fh ds r t h
    have hne : ∀ l : List String, (l ++ [""]).isEmpty = false := by
      intro l
      cases l <;> rfl
    cases ds with
    | nil =>
      simp only [lookupListGo, Tr.pure, Prod.mk.injEq, Option.some.injEq] at h
      obtain ⟨hr, ht⟩ := h
      subst hr
      subst ht
      simp [lookupListGo, Tr.pure, slashResult]
    | cons d rest =>
      simp only [List.cons_append]
      simp only [lookupListGo] at h ⊢
      rw [if_neg (by simp)] at h
      rw [if_neg (by simp)]
      by_cases hdot : (d = "." || d = "") = true
      · rw [if_pos hdot] at h
        rw [if_pos hdot]
        by_cases hl : rest.isEmpty = true
        · have hrnil : rest = [] := List.isEmpty_iff.mp hl
          subst hrnil
          rw [if_pos (show ([] : List String).isEmpty = true from rfl)] at h
          simp only [Tr.pure, Prod.mk.injEq, Option.some.injEq] at h
          obtain ⟨hr, ht⟩ := h
          subst hr
          subst ht
          rw [if_neg (by simp [hne])]
          simp [lookupListGo, Tr.pure, slashResult]
        · rw [if_neg hl] at h
          rw [if_neg (by simp [hne])]
          exact ih O fa fh rest r t h
      · rw [if_neg hdot] at h
        rw [if_neg hdot]
        rcases hlk : srv.lookupFn fh d with e | lr
        · rw [hlk] at h
          simp only [Tr.bind, Tr.call, Prod.mk.injEq, Option.some.injEq] at h
          obtain ⟨hr, ht⟩ := h
          subst hr
          subst ht
          simp [Tr.bind, Tr.call, slashResult]
        · rw [hlk] at h
          simp only [Tr.bind, Tr.call] at h ⊢
          by_cases hsym : isSymlinkMode (paAttr lr.attr).fileMode = true
          · rw [if_pos hsym] at h
            rw [if_pos hsym]
            by_cases hcyc : (O.isSome && sameHandleFH lr.fh O) = true
            · rw [if_pos hcyc] at h
              rw [if_pos hcyc]
              simp only [Tr.fail, Prod.mk.injEq, Option.some.injEq,
                List.append_nil] at h
              obtain ⟨hr, ht⟩ := h
              subst hr
              subst ht
              simp [Tr.fail, slashResult]
            · rw [if_neg hcyc] at h
              rw [if_neg hcyc]
              rcases hrl : srv.readlinkFn lr.fh with e2 | rl
              · rw [hrl] at h
                simp only [Tr.bind, Tr.call, Prod.mk.injEq,
                  Option.some.injEq] at h
                obtain ⟨hr, ht⟩ := h
                subst hr
                subst ht
                simp [Tr.bind, Tr.call, slashResult]
              · rw [hrl] at h
                simp only [Tr.bind, Tr.call] at h ⊢
                rcases hre : lookupListGo srv auth root n true lr.fh none root
                    (splitOnSlash rl.target) with ⟨rr, tt⟩
                rw [hre] at h
                cases rr with
                | none =>
                  rw [reparseSwallow_none] at h
                  exact absurd (congrArg Prod.fst h) (by simp)
                | some ex =>
                  rw [lookupListGo_fuel_mono srv auth root n true lr.fh none
                    root (splitOnSlash rl.target) ex tt hre]
                  cases ex with
                  | error e3 =>
                    rw [reparseSwallow_error] at h ⊢
                    simp only [] at h ⊢
                    by_cases hl : rest.isEmpty = true
                    · have hrnil : rest = [] := List.isEmpty_iff.mp hl
                      subst hrnil
                      rw [if_pos (show ([] : List String).isEmpty = true from rfl)] at h
                      rw [if_neg (by simp [hne])]
                      simp only [Tr.pure, Prod.mk.injEq, Option.some.injEq] at h
                      obtain ⟨hr, ht⟩ := h
                      subst hr
                      subst ht
                      simp [lookupListGo, Tr.pure, slashResult]
                    · rw [if_neg hl] at h
                      rw [if_neg (by simp [hne])]
                      rcases hcont : lookupListGo srv auth root n true O
                          (some (paAttr lr.attr)) none rest with ⟨r3, t3⟩
                      rw [hcont] at h
                      cases r3 with
                      | none => exact absurd (congrArg Prod.fst h) (by simp)
                      | some r4 =>
                        rw [ih O (some (paAttr lr.attr)) none rest r4 t3 hcont]
                        simp only [Prod.mk.injEq, Option.some.injEq] at h ⊢
                        obtain ⟨hr, ht⟩ := h
                        subst hr
                        subst ht
                        exact ⟨rfl, rfl⟩
                  | ok rr2 =>
                    rw [reparseSwallow_ok] at h ⊢
                    simp only [] at h ⊢
                    by_cases hl : rest.isEmpty = true
                    · have hrnil : rest = [] := List.isEmpty_iff.mp hl
                      subst hrnil
                      rw [if_pos (show ([] : List String).isEmpty = true from rfl)] at h
                      rw [if_neg (by simp [hne])]
                      simp only [Tr.pure, Prod.mk.injEq, Option.some.injEq] at h
                      obtain ⟨hr, ht⟩ := h
                      subst hr
                      subst ht
                      simp [lookupListGo, Tr.pure, slashResult]
                    · rw [if_neg hl] at h
                      rw [if_neg (by simp [hne])]
                      rcases hcont : lookupListGo srv auth root n true O
                          (some (paAttr lr.attr)) rr2.2.1 rest with ⟨r3, t3⟩
                      rw [hcont] at h
                      cases r3 with
                      | none => exact absurd (congrArg Prod.fst h) (by simp)
                      | some r4 =>
                        rw [ih O (some (paAttr lr.attr)) rr2.2.1 rest r4 t3
                          hcont]
                        simp only [Prod.mk.injEq, Option.some.injEq] at h ⊢
                        obtain ⟨hr, ht⟩ := h
                        subst hr
                        subst ht
                        exact ⟨rfl, rfl⟩
          · rw [if_neg hsym] at h
            rw [if_neg hsym]
            by_cases hl : rest.isEmpty = true
            · have hrnil : rest = [] := List.isEmpty_iff.mp hl
              subst hrnil
              rw [if_pos (show ([] : List String).isEmpty = true from rfl)] at h
              rw [if_neg (by simp [hne])]
              simp only [Tr.pure, Prod.mk.injEq, Option.some.injEq] at h
              obtain ⟨hr, ht⟩ := h
              subst hr
              subst ht
              simp [lookupListGo, Tr.pure, slashResult]
            · rw [if_neg hl] at h
              rw [if_neg (by simp [hne])]
              rcases hcont : lookupListGo srv auth root n true O
                  (some (paAttr lr.attr)) lr.fh rest with ⟨r3, t3⟩
              rw [hcont] at h
              cases r3 with
              | none => exact absurd (congrArg Prod.fst h) (by simp)
              | some r4 =>
                rw [ih O (some (paAttr lr.attr)) lr.fh rest r4 t3 hcont]
                simp only [Prod.mk.injEq, Option.some.injEq] at h ⊢
                obtain ⟨hr, ht⟩ := h
                subst hr
                subst ht
                exact ⟨rfl, rfl⟩

end NfsTarget

namespace NfsTarget

/-- C6 (amended): empty and `.` components are no-ops that issue no RPC;
with `follow-last = true`, a trailing slash preserves the resolved fattr,
handle, error and request trace, while the final component becomes `""`
and the parent handle becomes the resolved handle itself; the empty path
resolves to the start handle with no RPC. -/
theorem path_normalization_amended :
    (∀ (srv : Server) (auth : Auth) (root fh origin : FH) (fuel : Nat)
       (p : String) (r : Except Err LookupRes) (t : List RpcReq),
       lookupInnerGo srv auth root fuel fh p true origin = (some r, t) →
       lookupInnerGo srv auth root (fuel + 1) fh (p ++ "/") true origin
         = (some (slashResult r), t)) ∧
    (∀ (srv : Server) (auth : Auth) (root fh origin : FH) (fuel : Nat),
       lookupInnerGo srv auth root (fuel + 1) fh "" true origin
         = (some (.ok (none, fh, "", fh)), [])) ∧
    (∀ (srv : Server) (auth : Auth) (root fh origin : FH) (fuel : Nat)
       (L : Bool) (fa : Option Fattr) (ds : List String)
       (r : Except Err LookupRes) (t : List RpcReq),
       ds ≠ [] →
       lookupListGo srv auth root fuel L origin fa fh ds = (some r, t) →
       lookupListGo srv auth root (fuel + 1) L origin fa fh ("." :: ds)
         = (some r, t)) ∧
    (∀ (srv : Server) (auth : Auth) (root fh origin : FH) (fuel : Nat)
       (L : Bool) (fa : Option Fattr) (ds : List String)
       (r : Except Err LookupRes) (t : List RpcReq),
       ds ≠ [] →
       lookupListGo srv auth root fuel L origin fa fh ds = (some r, t) →
       lookupListGo srv auth root (fuel + 1) L origin fa fh ("" :: ds)
         = (some r, t)) := by
  refine ⟨?_, ?_, ?_, ?_⟩
  · intro srv auth root fh origin fuel p r t h
    simp only [lookupInnerGo, splitOnSlash_append_slash] at h ⊢
    exact lookupListGo_trailing_empty srv auth root fuel origin none fh
      (splitOnSlash p) r t h
  · intro srv auth root fh origin fuel
    simp [lookupInnerGo, lookupListGo, Tr.pure,
      show splitOnSlash "" = [""] from rfl]
  · intro srv auth root fh origin fuel L fa ds r t hne h
    have he : ds.isEmpty = false := by
      cases ds with
      | nil => exact absurd rfl hne
      | cons x xs => rfl
    simp only [lookupListGo]
    rw [if_neg (by simp [he])]
    rw [if_pos (by simp)]
    rw [if_neg (by simp [he])]
    exact h
  · intro srv auth root fh origin fuel L fa ds r t hne h
    have he : ds.isEmpty = false := by
      cases ds with
      | nil => exact absurd rfl hne
      | cons x xs => rfl
    simp only [lookupListGo]
    rw [if_neg (by simp [he])]
    rw [if_pos (by simp)]
    rw [if_neg (by simp [he])]
    exact h

/-- Witness for the amended C6: the trailing-slash clause applied to the
concrete resolution of `f` on `slSrv`. -/
theorem path_normalization_amended_witness :
    lookupInnerGo slSrv 7 (some [0]) 10 (some [0]) "f/" true none =
      (some (.ok (some fileAttrF, some [4], "", some [4])),
       [⟨⟨2, nfs3Prog, nfs3Vers, procLookup, 7, authNull⟩,
         .lookup (some [0]) "f"⟩]) :=
  path_normalization_amended.1 slSrv 7 (some [0]) (some [0]) none 9 "f"
    (.ok (some fileAttrF, some [4], "f", some [0]))
    [⟨⟨2, nfs3Prog, nfs3Vers, procLookup, 7, authNull⟩,
      .lookup (some [0]) "f"⟩] rfl

end NfsTarget

namespace NfsTarget

/-! ## C7 — RPC headers -/

/-- A pure value issues no request. -/
theorem goodTr_pure (auth : Auth) (a : α) : goodTr auth (Tr.pure a) := by
  intro req hreq
  simp [Tr.pure] at hreq

/-- A local error issues no request. -/
theorem goodTr_fail (auth : Auth) (e : Err) : goodTr auth (Tr.fail e : Tr α) := by
  intro req hreq
  simp [Tr.fail] at hreq

/-- A call whose request carries the standard header is good. -/
theorem goodTr_call (auth : Auth) (req : RpcReq) (resp : Except Err α)
    (h : goodReq auth req) : goodTr auth (Tr.call req resp) := by
  intro r hr
  simp only [Tr.call, List.mem_singleton] at hr
  subst hr
  exact h

/-- Sequencing preserves the header invariant. -/
theorem goodTr_bind (auth : Auth) (x : Tr α) (f : α → Tr β)
    (hx : goodTr auth x) (hf : ∀ a, goodTr auth (f a)) :
    goodTr auth (Tr.bind x f) := by
  obtain ⟨xr, xt⟩ := x
  cases xr with
  | none => exact hx
  | some ex =>
    cases ex with
    | error e => exact hx
    | ok a =>
      intro req hreq
      simp only [Tr.bind] at hreq
      rcases hfa : f a with ⟨fr, ft⟩
      rw [hfa] at hreq
      simp only [List.mem_append] at hreq
      rcases hreq with hreq | hreq
      · exact hx req hreq
      · have := hf a
        rw [hfa] at this
        exact this req hreq

/-- The swallow step preserves the header invariant. -/
theorem goodTr_reparseSwallow (auth : Auth) (rp : Tr LookupRes)
    (c : FH → Tr LookupRes) (hrp : goodTr auth rp)
    (hc : ∀ fh2, goodTr auth (c fh2)) :
    goodTr auth (reparseSwallow rp c) := by
  obtain ⟨rr, rt⟩ := rp
  cases rr with
  | none => exact hrp
  | some ex =>
    cases ex with
    | error e =>
      intro req hreq
      simp only [reparseSwallow, List.mem_append] at hreq
      rcases hreq with hreq | hreq
      · exact hrp req hreq
      · exact hc none req hreq
    | ok res =>
      intro req hreq
      simp only [reparseSwallow, List.mem_append] at hreq
      rcases hreq with hreq | hreq
      · exact hrp req hreq
      · exact hc res.2.1 req hreq

/-- Every request the resolver sends carries the standard header. -/
theorem lookupListGo_goodTr (srv : Server) (auth : Auth) (root : FH) :
    ∀ (fuel : Nat) (L : Bool) (O : FH) (fa : Option Fattr) (fh : FH)
      (ds : List String),
      goodTr auth (lookupListGo srv auth root fuel L O fa fh ds) := by
  intro fuel
  induction fuel with
  | zero =>
    intro L O fa fh ds req hreq
    simp [lookupListGo] at hreq
  | succ n ih =>
    intro L O fa fh ds
    cases ds with
    | nil => exact goodTr_pure auth _
    | cons d rest =>
      simp only [lookupListGo]
      by_cases hb : (rest.isEmpty && !L) = true
      · rw [if_pos hb]
        exact goodTr_pure auth _
      · rw [if_neg hb]
        by_cases hdot : (d = "." || d = "") = true
        · rw [if_pos hdot]
          by_cases hl : rest.isEmpty = true
          · rw [if_pos hl]
            exact goodTr_pure auth _
          · rw [if_neg hl]
            exact ih L O fa fh rest
        · rw [if_neg hdot]
          refine goodTr_bind auth _ _ (goodTr_call auth _ _ rfl) ?_
          intro lr
          by_cases hsym : isSymlinkMode (paAttr lr.attr).fileMode = true
          · rw [if_pos hsym]
            by_cases hcyc : (O.isSome && sameHandleFH lr.fh O) = true
            · rw [if_pos hcyc]
              exact goodTr_fail auth _
            · rw [if_neg hcyc]
              refine goodTr_bind auth _ _ (goodTr_call auth _ _ rfl) ?_
              intro rl
              refine goodTr_reparseSwallow auth _ _ (ih true lr.fh none root _) ?_
              intro fh2
              by_cases hl : rest.isEmpty = true
              · rw [if_pos hl]
                exact goodTr_pure auth _
              · rw [if_neg hl]
                exact ih L O (some (paAttr lr.attr)) fh2 rest
          · rw [if_neg hsym]
            by_cases hl : rest.isEmpty = true
            · rw [if_pos hl]
              exact goodTr_pure auth _
            · rw [if_neg hl]
              exact ih L O (some (paAttr lr.attr)) lr.fh rest

/-- Every request the pager sends carries the standard header. -/
theorem readDirPlusLoopGo_goodTr (srv : Server) (auth : Auth) (fh : FH) :
    ∀ (fuel cookie verf : Nat) (acc : List EntryPlus),
      goodTr auth (readDirPlusLoopGo srv auth fh fuel cookie verf acc) := by
  intro fuel
  induction fuel with
  | zero =>
    intro c v acc req hreq
    simp [readDirPlusLoopGo] at hreq
  | succ n ih =>
    intro c v acc
    simp only [readDirPlusLoopGo]
    refine goodTr_bind auth _ _ (goodTr_call auth _ _ rfl) ?_
    intro page
    by_cases he : page.eof = true
    · rw [if_pos he]
      exact goodTr_pure auth _
    · rw [if_neg he]
      exact ih _ _ _

/-- A sequence of good actions is good. -/
theorem trSeq_goodTr (auth : Auth) (f : α → Tr Unit)
    (hf : ∀ a, goodTr auth (f a)) :
    ∀ xs : List α, goodTr auth (trSeq f xs) := by
  intro xs
  induction xs with
  | nil => exact goodTr_pure auth _
  | cons x rest ih => exact goodTr_bind auth _ _ (hf x) (fun _ => ih)

/-- Every request the recursive remover sends carries the standard
header. -/
theorem removeAllRecGo_goodTr (srv : Server) (auth : Auth) :
    ∀ (fuel : Nat) (dirFh : FH),
      goodTr auth (removeAllRecGo srv auth fuel dirFh) := by
  intro fuel
  induction fuel with
  | zero =>
    intro dirFh req hreq
    simp [removeAllRecGo] at hreq
  | succ n ih =>
    intro dirFh
    simp only [removeAllRecGo]
    refine goodTr_bind auth _ _ (readDirPlusLoopGo_goodTr srv auth dirFh _ _ _ _) ?_
    intro entries
    refine trSeq_goodTr auth _ ?_ entries
    intro e
    by_cases h1 : (e.fileName = "." || e.fileName = "..") = true
    · rw [if_pos h1]
      exact goodTr_pure auth _
    · rw [if_neg h1]
      by_cases h2 : (paAttr e.attr).ftype = nf3Dir
      · rw [if_pos h2]
        by_cases h3 : e.handle.isSome = true
        · rw [if_pos h3]
          exact goodTr_bind auth _ _ (ih e.handle)
            (fun _ => goodTr_call auth _ _ rfl)
        · rw [if_neg h3]
          exact goodTr_call auth _ _ rfl
      · rw [if_neg h2]
        exact goodTr_call auth _ _ rfl

/-- Every request `RemoveAll` sends carries the standard header. -/
theorem removeAllGo_goodTr (srv : Server) (auth : Auth) (root : FH)
    (fuel : Nat) (p : String) :
    goodTr auth (RemoveAllGo srv auth root fuel p) := by
  simp only [RemoveAllGo]
  refine goodTr_bind auth _ _
    (lookupListGo_goodTr srv auth root fuel false none none root _) ?_
  intro r
  rcases hrm : srv.rmdirFn r.2.2.2 r.2.2.1 with e | u
  · simp only [rmDirRpcGo, Tr.call, hrm]
    by_cases h1 : isNotExistErr e = true
    · rw [if_pos h1]
      exact goodTr_call auth _ _ rfl
    · rw [if_neg h1]
      by_cases h2 : isNotDirErr e = true
      · rw [if_pos h2]
        exact goodTr_call auth _ _ rfl
      · rw [if_neg h2]
        intro req hreq
        simp only [List.mem_append, List.mem_singleton] at hreq
        rcases hreq with hreq | hreq
        · subst hreq
          rfl
        · have hg : goodTr auth (Tr.bind
              (lookupInnerGo srv auth root fuel r.2.2.2 r.2.2.1 true none)
              (fun r2 => Tr.bind (removeAllRecGo srv auth fuel r2.2.1)
                (fun _ => ((some (Except.error e),
                  [⟨⟨2, nfs3Prog, nfs3Vers, procRmDir, auth, authNull⟩,
                    .rmdir r.2.2.2 r.2.2.1⟩]) : Tr Unit)))) := by
            refine goodTr_bind auth _ _
              (lookupListGo_goodTr srv auth root fuel true none none
                r.2.2.2 _) ?_
            intro r2
            exact goodTr_bind auth _ _ (removeAllRecGo_goodTr srv auth fuel _)
              (fun _ => goodTr_call auth
                ⟨⟨2, nfs3Prog, nfs3Vers, procRmDir, auth, authNull⟩,
                  .rmdir r.2.2.2 r.2.2.1⟩ (Except.error e) rfl)
          exact hg req hreq
  · simp only [rmDirRpcGo, Tr.call, hrm]
    exact goodTr_call auth _ _ rfl

end NfsTarget

namespace NfsTarget

/-- C7: every RPC request emitted by every modelled Target operation
carries the header `{rpcvers = 2, prog = NFS3, vers = 3}`, the procedure
number belonging to its own body, the Target's credential, and the
AUTH_NULL verifier. -/
theorem all_requests_carry_standard_header (srv : Server) (auth : Auth)
    (root fh tfh origin : FH) (fuel : Nat) (p q name toName : String)
    (perm mask : Nat) (sattr : Sattr3) (L : Bool) :
    goodTr auth (fsInfoGo srv auth root) ∧
    goodTr auth (lookupRpcGo srv auth fh name) ∧
    goodTr auth (readlinkFhGo srv auth fh) ∧
    goodTr auth (getAttrFhGo srv auth fh) ∧
    goodTr auth (accessRpcGo srv auth fh mask) ∧
    goodTr auth (setAttrByFhGo srv auth fh sattr) ∧
    goodTr auth (mkdirByParentFhGo srv auth fh name perm) ∧
    goodTr auth (createByFhGo srv auth fh name perm) ∧
    goodTr auth (removeRpcGo srv auth fh name) ∧
    goodTr auth (rmDirRpcGo srv auth fh name) ∧
    goodTr auth (renameByFhGo srv auth fh name tfh toName) ∧
    goodTr auth (readDirPlusByFhGo srv auth fuel fh) ∧
    goodTr auth (lookupInnerGo srv auth root fuel fh p L origin) ∧
    goodTr auth (LookupGo srv auth root fuel p) ∧
    goodTr auth (GetAttrGo srv auth root fuel p) ∧
    goodTr auth (AccessGo srv auth root fuel p mask) ∧
    goodTr auth (ReadlinkGo srv auth root fuel p) ∧
    goodTr auth (RenameGo srv auth root fuel p q) ∧
    goodTr auth (RemoveAllGo srv auth root fuel p) := by
  have hLk : ∀ q2, goodTr auth (LookupGo srv auth root fuel q2) := by
    intro q2
    exact goodTr_bind auth _ _
      (lookupListGo_goodTr srv auth root fuel true none none root _)
      (fun _ => goodTr_pure auth _)
  refine ⟨goodTr_call auth _ _ rfl, goodTr_call auth _ _ rfl,
    goodTr_call auth _ _ rfl, goodTr_call auth _ _ rfl,
    goodTr_call auth _ _ rfl, goodTr_call auth _ _ rfl,
    goodTr_call auth _ _ rfl, goodTr_call auth _ _ rfl,
    goodTr_call auth _ _ rfl, goodTr_call auth _ _ rfl,
    goodTr_call auth _ _ rfl,
    readDirPlusLoopGo_goodTr srv auth fh fuel 0 0 [],
    lookupListGo_goodTr srv auth root fuel L origin none fh _,
    hLk p, ?_, ?_, ?_, ?_,
    removeAllGo_goodTr srv auth root fuel p⟩
  · exact goodTr_bind auth _ _ (hLk p) (fun r =>
      goodTr_bind auth _ _ (goodTr_call auth _ _ rfl)
        (fun _ => goodTr_pure auth _))
  · exact goodTr_bind auth _ _ (hLk p) (fun r =>
      goodTr_bind auth _ _ (goodTr_call auth _ _ rfl)
        (fun _ => goodTr_pure auth _))
  · exact goodTr_bind auth _ _ (hLk p) (fun r =>
      goodTr_bind auth _ _ (goodTr_call auth _ _ rfl)
        (fun _ => goodTr_pure auth _))
  · refine goodTr_bind auth _ _
      (lookupListGo_goodTr srv auth root fuel true none none root _) ?_
    intro fr
    by_cases h1 : fr.2.2.2.isNone = true
    · rw [if_pos h1]
      exact goodTr_fail auth _
    · rw [if_neg h1]
      refine goodTr_bind auth _ _
        (lookupListGo_goodTr srv auth root fuel false none none root _) ?_
      intro to2
      by_cases h2 : to2.2.2.2.isNone = true
      · rw [if_pos h2]
        exact goodTr_fail auth _
      · rw [if_neg h2]
        exact goodTr_call auth _ _ rfl

/-- Witness for C7: the FSINFO request of a concrete target. -/
theorem all_requests_carry_standard_header_witness :
    goodReq 7 ⟨⟨2, nfs3Prog, nfs3Vers, procFSInfo, 7, authNull⟩,
      .fsinfo (some [0])⟩ :=
  (all_requests_carry_standard_header errSrv 7 (some [0]) (some [0]) (some [0])
      none 3 "p" "q" "n" "m" 0 0 ⟨none, none⟩ true).1
    ⟨⟨2, nfs3Prog, nfs3Vers, procFSInfo, 7, authNull⟩, .fsinfo (some [0])⟩
    (by simp [fsInfoGo, Tr.call])

end NfsTarget
